import Mathlib

/-
Verification of the linear-scan register allocator (graph.rs / allocator.rs).

Shallow embedding conventions:
  * Rust uint ids (BlockId, InstrId, IntervalId, GroupId, RegisterId, StackId)
    become Nat.
  * SmallIntMap becomes an association list (List (Nat × α)); iteration over a
    SmallIntMap visits keys in ascending order, which we model by iterating
    over List.range of the graph's id counter and looking each key up.
  * Functions that can panic in Rust (assert!, fail!, Option::unwrap/expect,
    out-of-bounds indexing) return Option; a panic is modelled as none.
  * Functions returning Result<T, ~str> return Except String T inside Option.
  * The user-supplied collaborator traits (KindHelper for the instruction
    kind; GroupHelper / RegisterHelper for register groups) are modelled as
    explicit data: a UserKind record of the four KindHelper methods, and the
    per-group register count passed as an argument where the allocator needs
    group.registers().
-/

namespace LinearScan

/-- UseKind from graph.rs: UseAny, UseRegister, UseFixed. -/
inductive UseKind where
  | UseAny (g : Nat)
  | UseRegister (g : Nat)
  | UseFixed (g : Nat) (r : Nat)
deriving DecidableEq, Repr

export UseKind (UseAny UseRegister UseFixed)

/-- Use from graph.rs: a use kind at an instruction position. -/
structure Use where
  kind : UseKind
  pos : Nat
deriving DecidableEq, Repr

/-- LiveRange from graph.rs; half-open [start, end). The source field name
end is a Lean keyword, written end_ here. -/
structure LiveRange where
  start : Nat
  end_ : Nat
deriving DecidableEq, Repr

/-- Value from graph.rs: VirtualVal, RegisterVal, StackVal. -/
inductive Value where
  | VirtualVal (g : Nat)
  | RegisterVal (g : Nat) (r : Nat)
  | StackVal (g : Nat) (s : Nat)
deriving DecidableEq, Repr

export Value (VirtualVal RegisterVal StackVal)

/-- Interval from graph.rs. -/
structure Interval where
  id : Nat
  value : Value
  hint : Option Nat
  ranges : List LiveRange
  parent : Option Nat
  uses : List Use
  children : List Nat
  fixed : Bool
deriving DecidableEq, Repr

/-- GapActionKind from graph.rs. -/
inductive GapActionKind where
  | Move
  | Swap
deriving DecidableEq, Repr

/-- GapAction from graph.rs. The source field names from and to are Lean
keywords/tokens, written from_ and to_ here. -/
structure GapAction where
  kind : GapActionKind
  from_ : Nat
  to_ : Nat
deriving DecidableEq, Repr

/-- GapState from graph.rs: the list of parallel-move actions of a gap. -/
structure GapState where
  actions : List GapAction
deriving DecidableEq, Repr

/-- KindHelper collaborator (the user's instruction kind K): the four trait
methods clobbers, temporary, use_kind, result_kind as record fields. -/
structure UserKind where
  clobbers : Nat → Bool
  temporary : List Nat
  use_kind : Nat → UseKind
  result_kind : Option UseKind

/-- InstrKind from graph.rs: User(K), Gap, Phi(group), ToPhi(group). -/
inductive InstrKind where
  | User (k : UserKind)
  | Gap
  | Phi (g : Nat)
  | ToPhi (g : Nat)

/-- Instruction from graph.rs. -/
structure Instruction where
  id : Nat
  block : Nat
  kind : InstrKind
  output : Option Nat
  inputs : List Nat
  temporary : List Nat
  added : Bool

/-- Block from graph.rs. The four liveness bit sets are modelled as lists of
interval ids (BitvSet iterates in ascending order; the graphs we build list
them ascending). -/
structure Block where
  id : Nat
  instructions : List Nat
  successors : List Nat
  predecessors : List Nat
  loop_index : Nat
  loop_depth : Nat
  incoming_forward_branches : Nat
  live_gen : List Nat
  live_kill : List Nat
  live_in : List Nat
  live_out : List Nat
  ended : Bool

/-- Graph from graph.rs; SmallIntMaps become association lists keyed by id. -/
structure Graph where
  root : Option Nat
  block_id : Nat
  instr_id : Nat
  interval_id : Nat
  intervals : List (Nat × Interval)
  blocks : List (Nat × Block)
  instructions : List (Nat × Instruction)
  phis : List Nat
  gaps : List (Nat × GapState)
  prepared : Bool
  physical : List (Nat × List (Nat × Nat))

/-- Lookup in an association list (SmallIntMap::find / get; the caller decides
whether a missing key is a panic). -/
def alookup {α : Type} (m : List (Nat × α)) (k : Nat) : Option α :=
  (m.find? (fun p => p.1 == k)).map Prod.snd

/-- Insert (or replace) a binding, as SmallIntMap::insert. The new binding
shadows any older one for alookup; map iteration is always modelled by
walking List.range of the id counter, never by walking this list. -/
def ainsert {α : Type} (m : List (Nat × α)) (k : Nat) (v : α) : List (Nat × α) :=
  (k, v) :: m

/-- Update the value bound to a key in place (used for the mutations done
through the mutable getters get_interval / get_instr / get_block). -/
def aupdate {α : Type} : List (Nat × α) → Nat → (α → α) → List (Nat × α)
  | [], _, _ => []
  | p :: t, k, f => (if p.1 = k then (p.1, f p.2) else p) :: aupdate t k f

/-- Value of uint::max_value on the 64-bit targets the crate is built for. -/
def uint_max : Nat := 2 ^ 64 - 1

/-- Wrapping predecessor of an InstrId (uint arithmetic: 0 - 1 wraps). -/
def iprev (n : Nat) : Nat := if n = 0 then uint_max else n - 1

/-- Successor of an InstrId (InstrId::next; ids stay far below uint_max). -/
def inext (n : Nat) : Nat := n + 1

/-- UseKind::is_fixed from graph.rs. -/
def UseKind.is_fixed : UseKind → Bool
  | UseFixed _ _ => true
  | _ => false

/-- UseKind::is_any from graph.rs. -/
def UseKind.is_any : UseKind → Bool
  | UseAny _ => true
  | _ => false

/-- UseKind::group from graph.rs. -/
def UseKind.group : UseKind → Nat
  | UseRegister g => g
  | UseAny g => g
  | UseFixed g _ => g

/-- Value::is_virtual from graph.rs. -/
def Value.is_virtual : Value → Bool
  | VirtualVal _ => true
  | _ => false

/-- Value::group from graph.rs. -/
def Value.group : Value → Nat
  | VirtualVal g => g
  | RegisterVal g _ => g
  | StackVal g _ => g

/-- LiveRange::covers from graph.rs: start <= pos && pos < end. -/
def LiveRange.covers (r : LiveRange) (pos : Nat) : Bool :=
  decide (r.start ≤ pos) && decide (pos < r.end_)

/-- LiveRange::get_intersection from graph.rs. -/
def LiveRange.get_intersection (r other : LiveRange) : Option Nat :=
  if r.covers other.start then some other.start
  else if other.start < r.start ∧ r.start < other.end_ then some r.start
  else none

/-- KindHelper::clobbers for InstrKind from graph.rs. -/
def InstrKind.clobbers : InstrKind → Nat → Bool
  | InstrKind.User k, group => k.clobbers group
  | InstrKind.Gap, _ => false
  | InstrKind.ToPhi _, _ => false
  | InstrKind.Phi _, _ => false

/-- KindHelper::temporary for InstrKind from graph.rs. -/
def InstrKind.temporary : InstrKind → List Nat
  | InstrKind.User k => k.temporary
  | InstrKind.Gap => []
  | InstrKind.Phi _ => []
  | InstrKind.ToPhi _ => []

/-- KindHelper::use_kind for InstrKind from graph.rs. -/
def InstrKind.use_kind : InstrKind → Nat → UseKind
  | InstrKind.User k, i => k.use_kind i
  | InstrKind.Gap, _ => UseAny 0
  | InstrKind.Phi g, _ => UseAny g
  | InstrKind.ToPhi g, _ => UseAny g

/-- KindHelper::result_kind for InstrKind from graph.rs. -/
def InstrKind.result_kind : InstrKind → Option UseKind
  | InstrKind.User k => k.result_kind
  | InstrKind.Gap => none
  | InstrKind.Phi g => some (UseAny g)
  | InstrKind.ToPhi g => some (UseAny g)

/-- Interval::start from graph.rs; asserts the range list is non-empty. -/
def Interval.start (i : Interval) : Option Nat :=
  i.ranges.head?.map LiveRange.start

/-- Interval::end from graph.rs; asserts the range list is non-empty. -/
def Interval.end_ (i : Interval) : Option Nat :=
  i.ranges.getLast?.map LiveRange.end_

/-- Interval::covers from graph.rs: true if one of the ranges contains pos. -/
def Interval.covers (i : Interval) (pos : Nat) : Bool :=
  i.ranges.any (fun r => r.covers pos)

/-- Interval::add_range from graph.rs: ranges are kept ordered by start; the
range is merged into the head range when they touch, otherwise unshifted. -/
def Interval.add_range (i : Interval) (start end_ : Nat) : Option Interval :=
  match i.ranges with
  | [] => some { i with ranges := [⟨start, end_⟩] }
  | r0 :: rest =>
    if end_ ≤ r0.start then
      some { i with ranges :=
        if r0.start = end_ then { r0 with start := start } :: rest
        else ⟨start, end_⟩ :: r0 :: rest }
    else none

/-- Mutation done through Interval::first_range (build_ranges shortens the
first range's start); asserts the range list is non-empty. -/
def Interval.set_first_range_start (i : Interval) (pos : Nat) : Option Interval :=
  match i.ranges with
  | [] => none
  | r0 :: rest => some { i with ranges := { r0 with start := pos } :: rest }

/-- Interval::add_use from graph.rs; asserts the new use comes first or has
the same group as the current head use. -/
def Interval.add_use (i : Interval) (kind : UseKind) (pos : Nat) : Option Interval :=
  match i.uses with
  | [] => some { i with uses := [⟨kind, pos⟩] }
  | u0 :: _ =>
    if pos < u0.pos ∨ u0.kind.group = kind.group then
      some { i with uses := ⟨kind, pos⟩ :: i.uses }
    else none

/-- Interval::next_fixed_use from graph.rs: first UseFixed at or after the
given position. -/
def Interval.next_fixed_use (i : Interval) (after : Nat) : Option Use :=
  i.uses.find? (fun u => u.kind.is_fixed && decide (after ≤ u.pos))

/-- Interval::next_use from graph.rs: first UseFixed or UseRegister at or
after the given position. -/
def Interval.next_use (i : Interval) (after : Nat) : Option Use :=
  i.uses.find? (fun u => decide (after ≤ u.pos) && !u.kind.is_any)

/-- Interval::last_use from graph.rs: last UseFixed or UseRegister at or
before the given position. -/
def Interval.last_use (i : Interval) (before : Nat) : Option Use :=
  i.uses.reverse.find? (fun u => decide (u.pos ≤ before) && !u.kind.is_any)

/-- Block::start from graph.rs: first instruction id; asserts non-empty. -/
def Block.start (b : Block) : Option Nat :=
  b.instructions.head?

/-- Block::end from graph.rs: last instruction id + 1; asserts non-empty. -/
def Block.end_ (b : Block) : Option Nat :=
  b.instructions.getLast?.map (· + 1)

/-- GapState::add_move from graph.rs. -/
def GapState.add_move (s : GapState) (from_ to_ : Nat) : GapState :=
  { s with actions := s.actions ++ [⟨GapActionKind.Move, from_, to_⟩] }

/-- Assertion in the Option monad: assert!(c) panics (none) when c fails. -/
def assert_opt (c : Prop) [Decidable c] : Option Unit :=
  if c then some () else none

/-- Mutation through Graph::get_interval (find_mut + unwrap): none when the
interval does not exist. -/
def Graph.upd_interval (g : Graph) (id : Nat) (f : Interval → Interval) : Option Graph := do
  let _ ← alookup g.intervals id
  pure { g with intervals := aupdate g.intervals id f }

/-- Mutation through Graph::get_instr (find_mut + unwrap). -/
def Graph.upd_instr (g : Graph) (id : Nat) (f : Instruction → Instruction) : Option Graph := do
  let _ ← alookup g.instructions id
  pure { g with instructions := aupdate g.instructions id f }

/-- Mutation through Graph::get_block (find_mut + unwrap). -/
def Graph.upd_block (g : Graph) (id : Nat) (f : Block → Block) : Option Graph := do
  let _ ← alookup g.blocks id
  pure { g with blocks := aupdate g.blocks id f }

/-- Graph::get_output from graph.rs: instructions.get(id).output.expect(..). -/
def Graph.get_output (g : Graph) (id : Nat) : Option Nat := do
  let i ← alookup g.instructions id
  i.output

/-- Graph::get_gap from graph.rs: creates the gap state on first access, then
applies a mutation to it (all call sites mutate through the returned
reference). -/
def Graph.with_gap (g : Graph) (id : Nat) (f : GapState → GapState) : Graph :=
  match alookup g.gaps id with
  | some s => { g with gaps := aupdate g.gaps id (fun _ => f s) }
  | none => { g with gaps := ainsert g.gaps id (f ⟨[]⟩) }

/-- Graph::is_gap from graph.rs; looks the instruction up (panic if absent). -/
def Graph.is_gap (g : Graph) (pos : Nat) : Option Bool :=
  (alookup g.instructions pos).map (fun i =>
    match i.kind with
    | InstrKind.Gap => true
    | _ => false)

/-- Graph::clobbers from graph.rs: the instruction at pos clobbers group. -/
def Graph.clobbers (g : Graph) (group pos : Nat) : Option Bool :=
  (alookup g.instructions pos).map (fun i => i.kind.clobbers group)

/-- Graph::block_boundary from graph.rs: pos is some block's start or end. -/
def Graph.block_boundary (g : Graph) (pos : Nat) : Option Bool := do
  let i ← alookup g.instructions pos
  let block ← alookup g.blocks i.block
  let s ← block.start
  let e ← block.end_
  pure (s == pos || e == pos)

/-- Graph::get_intersection from graph.rs: first position at which a range of
interval a intersects a range of interval b (outer loop over a's ranges,
inner loop over b's). -/
def Graph.get_intersection (g : Graph) (a b : Nat) : Option (Option Nat) := do
  let int_a ← alookup g.intervals a
  let int_b ← alookup g.intervals b
  pure (int_a.ranges.findSome? (fun ra =>
    int_b.ranges.findSome? (fun rb => ra.get_intersection rb)))

/-- Per-block step of the Graph::optimal_split_pos search loop: keep the
accumulator (best_pos, best_depth) unless this block is at most as deep and
its end() lies in (start, end]. -/
def Graph.osp_step (g : Graph) (start end_ : Nat) (acc : Nat × Nat) (bid : Nat) :
    Option (Nat × Nat) :=
  match alookup g.blocks bid with
  | none => pure acc
  | some block =>
    if block.loop_depth ≤ acc.2 then do
      let block_to ← block.end_
      if start < block_to ∧ block_to ≤ end_ then
        pure (block_to, block.loop_depth)
      else
        pure acc
    else
      pure acc

/-- Loop of Graph::optimal_split_pos: fold over the blocks in ascending id
order (SmallIntMap iteration), tracking (best_pos, best_depth). -/
def Graph.osp_fold (g : Graph) (start end_ : Nat) : Option (Nat × Nat) :=
  (List.range g.block_id).foldlM (g.osp_step start end_) (end_, uint_max)

/-- Gap-adjustment step of Graph::optimal_split_pos: when the found position
is neither a gap nor a clobber, assert best_pos >= start + 1 and step back
one position onto the preceding gap. -/
def Graph.osp_adjust (g : Graph) (group start best_pos : Nat) : Option Nat := do
  let gap ← g.is_gap best_pos
  let clob ← g.clobbers group best_pos
  -- Always split at gap
  if !gap && !clob then do
    let _ ← assert_opt (start + 1 ≤ best_pos)
    pure (best_pos - 1)
  else
    pure best_pos

/-- Graph::optimal_split_pos from graph.rs. Failed assertions are none. -/
def Graph.optimal_split_pos (g : Graph) (group start end_ : Nat) : Option Nat :=
  -- Fast and unfortunate case
  if start = end_ then some end_
  else do
    let bd ← g.osp_fold start end_
    let best_pos ← g.osp_adjust group start bd.1
    let _ ← assert_opt (start < best_pos ∧ best_pos ≤ end_)
    pure best_pos

/-- Loop of Graph::iterate_children as used by child_at /
child_with_use_at: try the parent, then every child in order, returning the
first interval accepted by the predicate; the predicate itself can panic
(start/end on an interval without ranges). -/
def Graph.child_loop (g : Graph) (p : Interval → Option Bool) :
    List Nat → Option (Option Nat)
  | [] => some none
  | c :: rest => do
    let iv ← alookup g.intervals c
    let hit ← p iv
    if hit then pure (some iv.id) else g.child_loop p rest

/-- Graph::child_at from graph.rs: first of the parent and its children whose
start() <= pos < end(). -/
def Graph.child_at (g : Graph) (parent pos : Nat) : Option (Option Nat) := do
  let p ← alookup g.intervals parent
  g.child_loop
    (fun iv => do
      let s ← iv.start
      let e ← iv.end_
      pure (decide (s ≤ pos) && decide (pos < e)))
    (parent :: p.children)

/-- Graph::child_with_use_at from graph.rs: first of the parent and its
children whose start() <= pos <= end() and that has a use exactly at pos. -/
def Graph.child_with_use_at (g : Graph) (parent pos : Nat) : Option (Option Nat) := do
  let p ← alookup g.intervals parent
  g.child_loop
    (fun iv => do
      let s ← iv.start
      let e ← iv.end_
      pure (decide (s ≤ pos) && decide (pos ≤ e) &&
            iv.uses.any (fun u => u.pos == pos)))
    (parent :: p.children)

/-- Graph::get_value from graph.rs. -/
def Graph.get_value (g : Graph) (i pos : Nat) : Option (Option Value) := do
  let child ← g.child_with_use_at i pos
  match child with
  | some child => do
    let iv ← alookup g.intervals child
    pure (some iv.value)
  | none => pure none

/-- Graph::new from graph.rs. -/
def Graph.new : Graph :=
  { root := none, block_id := 0, instr_id := 0, interval_id := 0,
    intervals := [], blocks := [], instructions := [], phis := [],
    gaps := [], prepared := false, physical := [] }

/-- Block::new from graph.rs; takes the next block id from the graph. -/
def Block.new (g : Graph) : Block × Graph :=
  ({ id := g.block_id, instructions := [], successors := [], predecessors := [],
     loop_index := 0, loop_depth := 0, incoming_forward_branches := 0,
     live_gen := [], live_kill := [], live_in := [], live_out := [],
     ended := false },
   { g with block_id := g.block_id + 1 })

/-- Graph::empty_block from graph.rs. -/
def Graph.empty_block (g : Graph) : Nat × Graph :=
  let (block, g) := Block.new g
  (block.id, { g with blocks := ainsert g.blocks block.id block })

/-- Interval::new from graph.rs: a fresh virtual interval of the group. -/
def Interval.new (g : Graph) (group : Nat) : Nat × Graph :=
  let r : Interval :=
    { id := g.interval_id, value := VirtualVal group, hint := none,
      ranges := [], parent := none, uses := [], children := [], fixed := false }
  (r.id, { g with interval_id := g.interval_id + 1,
                  intervals := ainsert g.intervals r.id r })

/-- Instruction::new_empty from graph.rs: allocates the instruction id, then
one fresh interval per temporary group, then inserts the instruction. -/
def Instruction.new_empty (g : Graph) (kind : InstrKind) (args : List Nat) :
    Nat × Graph :=
  let id := g.instr_id
  let g := { g with instr_id := g.instr_id + 1 }
  let (temporary, g) := kind.temporary.foldl
    (fun (acc : List Nat × Graph) group =>
      let (iv, g) := Interval.new acc.2 group
      (acc.1 ++ [iv], g)) ([], g)
  let r : Instruction :=
    { id := id, block := 0, kind := kind, output := none, inputs := args,
      temporary := temporary, added := false }
  (id, { g with instructions := ainsert g.instructions r.id r })

/-- Instruction::new from graph.rs: also creates the output interval when the
kind has a result. -/
def Instruction.new (g : Graph) (kind : InstrKind) (args : List Nat) :
    Nat × Graph :=
  let (output, g) :=
    match kind.result_kind with
    | some k => let (iv, g) := Interval.new g k.group; (some iv, g)
    | none => (none, g)
  let (instr, g) := Instruction.new_empty g kind args
  let upd := fun (i : Instruction) => { i with output := output }
  (instr, { g with instructions := aupdate g.instructions instr upd })

/-- Graph::new_instr from graph.rs. -/
def Graph.new_instr (g : Graph) (kind : UserKind) (args : List Nat) : Nat × Graph :=
  Instruction.new g (InstrKind.User kind) args

/-- Graph::phi from graph.rs: create the phi instruction and immediately mark
it added so it can never be appended to a block. -/
def Graph.phi (g : Graph) (group : Nat) : Nat × Graph :=
  let (res, g) := Instruction.new g (InstrKind.Phi group) []
  -- Prevent adding phi to block
  let upd := fun (i : Instruction) => { i with added := true }
  let g := { g with instructions := aupdate g.instructions res upd }
  (res, { g with phis := g.phis ++ [res] })

/-- BlockBuilder::add_existing from graph.rs; the builder's block is passed
explicitly. Asserts the instruction was not added before and that the block
has not ended. -/
def Graph.add_existing (g : Graph) (block instr_id : Nat) : Option Graph := do
  let instr ← alookup g.instructions instr_id
  let _ ← assert_opt (instr.added = false)
  let g ← g.upd_instr instr_id (fun i => { i with added := true, block := block })
  let b ← alookup g.blocks block
  let _ ← assert_opt (b.ended = false)
  g.upd_block block (fun b => { b with instructions := b.instructions ++ [instr_id] })

/-- BlockBuilder::add from graph.rs: create a user instruction and append it. -/
def Graph.add (g : Graph) (block : Nat) (kind : UserKind) (args : List Nat) :
    Option (Nat × Graph) := do
  let (instr_id, g) := g.new_instr kind args
  let g ← g.add_existing block instr_id
  pure (instr_id, g)

/-- Block::add_successor from graph.rs. NOTE: the assertion is checked
before the push, so it admits a third successor. -/
def Block.add_successor (b : Block) (succ : Nat) : Option Block :=
  if b.successors.length ≤ 2 then
    some { b with successors := b.successors ++ [succ] }
  else none

/-- Block::add_predecessor from graph.rs; same pre-push assertion. -/
def Block.add_predecessor (b : Block) (pred : Nat) : Option Block :=
  if b.predecessors.length ≤ 2 then
    some { b with predecessors := b.predecessors ++ [pred],
                  incoming_forward_branches := b.incoming_forward_branches + 1 }
  else none

/-- Mutation through Graph::get_block combined with Block::add_successor. -/
def Graph.block_add_successor (g : Graph) (block succ : Nat) : Option Graph := do
  let b ← alookup g.blocks block
  let b' ← b.add_successor succ
  pure { g with blocks := aupdate g.blocks block (fun _ => b') }

/-- Mutation through Graph::get_block combined with Block::add_predecessor. -/
def Graph.block_add_predecessor (g : Graph) (block pred : Nat) : Option Graph := do
  let b ← alookup g.blocks block
  let b' ← b.add_predecessor pred
  pure { g with blocks := aupdate g.blocks block (fun _ => b') }

/-- BlockBuilder::end from graph.rs. -/
def Graph.end_block (g : Graph) (block : Nat) : Option Graph := do
  let b ← alookup g.blocks block
  let _ ← assert_opt (b.ended = false)
  let _ ← assert_opt (b.instructions.length > 0)
  g.upd_block block (fun b => { b with ended := true })

/-- BlockBuilder::goto from graph.rs. -/
def Graph.goto (g : Graph) (block target_id : Nat) : Option Graph := do
  let g ← g.block_add_successor block target_id
  let g ← g.block_add_predecessor target_id block
  g.end_block block

/-- BlockBuilder::branch from graph.rs. -/
def Graph.branch (g : Graph) (block left right : Nat) : Option Graph := do
  let g ← g.block_add_successor block left
  let g ← g.block_add_successor block right
  let g ← g.block_add_predecessor left block
  let g ← g.block_add_predecessor right block
  g.end_block block

/-- Insertion at an index, as ~[T]::insert (the indices used by split_at are
always within bounds). -/
def insertAt {α : Type} : List α → Nat → α → List α
  | l, 0, x => x :: l
  | [], _ + 1, x => [x]
  | y :: t, n + 1, x => y :: insertAt t n x

/-- Range partition of Graph::split_at (the filter_mapped loop over the split
parent's ranges): returns (parent_ranges, child_ranges), preserving order. -/
def split_ranges (pos : Nat) : List LiveRange → List LiveRange × List LiveRange
  | [] => ([], [])
  | range :: rest =>
    let (pr, cr) := split_ranges pos rest
    if range.end_ ≤ pos then
      (range :: pr, cr)
    else if range.start < pos then
      -- Split required
      (⟨range.start, pos⟩ :: pr, ⟨pos, range.end_⟩ :: cr)
    else
      (pr, range :: cr)

/-- Use partition of Graph::split_at: parent keeps a use when
split_on_call && u.pos <= pos || !split_on_call && u.pos < pos. -/
def split_uses (split_on_call : Bool) (pos : Nat) (uses : List Use) :
    List Use × List Use :=
  (uses.filter (fun u =>
     (split_on_call && decide (u.pos ≤ pos)) ||
     (!split_on_call && decide (u.pos < pos))),
   uses.filter (fun u =>
     !((split_on_call && decide (u.pos ≤ pos)) ||
       (!split_on_call && decide (u.pos < pos)))))

/-- Loop of Graph::split_at that finds the child interval covering pos when
the root parent itself does not: the source keeps overwriting split_parent,
so the last covering child wins. -/
def Graph.find_split_parent (g : Graph) (parent pos : Nat) : Option Nat := do
  let pIv ← alookup g.intervals parent
  if pIv.covers pos then
    pure parent
  else do
    let sp ← pIv.children.foldlM (fun acc c => do
        let civ ← alookup g.intervals c
        pure (if civ.covers pos then c else acc)) parent
    let spIv ← alookup g.intervals sp
    if spIv.covers pos then pure sp else none   -- assert!(covers)

/-- Index loop of Graph::split_at (children.eachi_reverse): position after
the last existing child whose end() <= pos, or 0. -/
def Graph.child_insert_index (g : Graph) (pos : Nat) (children : List Nat) :
    Option Nat :=
  go g pos children.length children.reverse
where
  go (g : Graph) (pos : Nat) : Nat → List Nat → Option Nat
  | _, [] => some 0
  | n, c :: rest => do
    let civ ← alookup g.intervals c
    let e ← civ.end_
    if e ≤ pos then pure n else go g pos (n - 1) rest

/-- Range-moving phase of Graph::split_at: partition the split parent's
ranges, assert both sides non-empty, store them, and set the child's hint. -/
def Graph.split_at_ranges (g : Graph) (split_parent child pos : Nat) : Option Graph := do
  let spIv ← alookup g.intervals split_parent
  let parent_ranges := (split_ranges pos spIv.ranges).1
  let child_ranges := (split_ranges pos spIv.ranges).2
  -- Ensure that at least one range is always present
  let _ ← assert_opt (child_ranges.length ≠ 0)
  let _ ← assert_opt (parent_ranges.length ≠ 0)
  let g ← g.upd_interval child (fun i => { i with ranges := child_ranges })
  let g ← g.upd_interval split_parent (fun i => { i with ranges := parent_ranges })
  -- Insert register hint
  g.upd_interval child (fun i => { i with hint := some split_parent })

/-- Use-moving phase of Graph::split_at: partition the split parent's uses
by the split_on_call boundary and store both sides. -/
def Graph.split_at_uses (g : Graph) (split_parent child group pos : Nat) : Option Graph := do
  let instrAtPos ← alookup g.instructions pos
  let split_on_call := instrAtPos.kind.clobbers group
  let spIv ← alookup g.intervals split_parent
  let parent_uses := (split_uses split_on_call pos spIv.uses).1
  let child_uses := (split_uses split_on_call pos spIv.uses).2
  let g ← g.upd_interval child (fun i => { i with uses := child_uses })
  g.upd_interval split_parent (fun i => { i with uses := parent_uses })

/-- Child-registration phase of Graph::split_at: insert the child into the
parent's children at the position keeping them sorted, link the parent. -/
def Graph.split_at_add_child (g : Graph) (parent child pos : Nat) : Option Graph := do
  let pIv ← alookup g.intervals parent
  let index ← g.child_insert_index pos pIv.children
  let g ← g.upd_interval parent (fun i => { i with children := insertAt i.children index child })
  g.upd_interval child (fun i => { i with parent := some parent })

/-- Short-circuit disjunction is_gap(pos) || clobbers(group, pos) used by
the split_at assertion (clobbers is only evaluated when is_gap is false). -/
def Graph.gap_or_clobbers (g : Graph) (group pos : Nat) : Option Bool := do
  let gap ← g.is_gap pos
  if gap then pure true else g.clobbers group pos

/-- Short-circuit condition split_at_call || !block_boundary(pos) guarding
the gap move insertion in split_at. -/
def Graph.split_move_cond (g : Graph) (split_at_call : Bool) (pos : Nat) :
    Option Bool :=
  if split_at_call then pure true
  else do
    let bb ← g.block_boundary pos
    pure (!bb)

/-- Graph::split_at from graph.rs: split an interval (or one of its
children) at pos, returning the id of the new child and the updated graph.
Failed assertions are none. -/
def Graph.split_at (g : Graph) (id pos : Nat) : Option (Nat × Graph) := do
  -- We should always make progress
  let iv ← alookup g.intervals id
  let ivStart ← iv.start
  let _ ← assert_opt (ivStart < pos)
  -- Split could be either at gap or at call
  let group := iv.value.group
  let atCall ← g.gap_or_clobbers group pos
  let _ ← assert_opt (atCall = true)
  let child := (Interval.new g group).1
  let g := (Interval.new g group).2
  let iv2 ← alookup g.intervals id
  let parent := iv2.parent.getD id
  -- Find appropriate child interval
  let split_parent ← g.find_split_parent parent pos
  -- Insert movement
  let split_at_call ← g.clobbers group pos
  let doMove ← g.split_move_cond split_at_call pos
  let g := if doMove then g.with_gap pos (fun s => s.add_move split_parent child) else g
  -- Move out ranges, insert register hint
  let g ← g.split_at_ranges split_parent child pos
  -- Move out uses
  let g ← g.split_at_uses split_parent child group pos
  -- Add child
  let g ← g.split_at_add_child parent child pos
  pure (child, g)



/-- Helper for concrete intervals: id, value, ranges, uses; no hint, parent,
children, not fixed. -/
def mkIv (id : Nat) (value : Value) (ranges : List LiveRange) (uses : List Use) : Interval :=
  ⟨id, value, none, ranges, none, uses, [], false⟩

/-- Helper for concrete instructions: id, block, kind; no output, inputs,
temporaries, already added. -/
def mkInstr (id block : Nat) (kind : InstrKind) : Instruction :=
  ⟨id, block, kind, none, [], [], true⟩

/-- Concrete graph with a single interval whose ranges [0,2) and [5,7) leave
a lifetime hole at position 3. -/
def c5_graph : Graph :=
  ⟨none, 0, 0, 1, [(0, mkIv 0 (VirtualVal 0) [⟨0, 2⟩, ⟨5, 7⟩] [⟨UseAny 0, 1⟩])],
   [], [], [], [], false, []⟩

/-- Concrete flattened graph fragment: instructions 0..3 with gaps at the odd
ids 1 and 3 (ToPhi never clobbers), no blocks. -/
def c3_graph : Graph :=
  ⟨none, 0, 4, 0, [],
   [],
   [(0, mkInstr 0 0 (InstrKind.ToPhi 0)), (1, mkInstr 1 0 InstrKind.Gap),
    (2, mkInstr 2 0 (InstrKind.ToPhi 0)), (3, mkInstr 3 0 InstrKind.Gap)],
   [], [], false, []⟩

/-- Helper for concrete blocks: id and instruction list, already ended. -/
def mkBlock (id : Nat) (instrs : List Nat) : Block :=
  ⟨id, instrs, [], [], 0, 0, 0, [], [], [], [], true⟩

/-- Concrete flattened one-block graph for exercising split_at: instructions
0..5 with gaps at the odd ids, and one interval with range [1,5) and uses at
positions 1 (register) and 3 (any). -/
def c6_graph : Graph :=
  ⟨none, 1, 6, 1,
   [(0, mkIv 0 (VirtualVal 0) [⟨1, 5⟩] [⟨UseRegister 0, 1⟩, ⟨UseAny 0, 3⟩])],
   [(0, mkBlock 0 [0, 1, 2, 3, 4, 5])],
   [(0, mkInstr 0 0 (InstrKind.ToPhi 0)), (1, mkInstr 1 0 InstrKind.Gap),
    (2, mkInstr 2 0 (InstrKind.ToPhi 0)), (3, mkInstr 3 0 InstrKind.Gap),
    (4, mkInstr 4 0 (InstrKind.ToPhi 0)), (5, mkInstr 5 0 InstrKind.Gap)],
   [], [], false, []⟩

/-- Result of splitting interval 0 of c6_graph at position 3. -/
def c6_res : Nat × Graph := (c6_graph.split_at 0 3).getD (0, c6_graph)

/-- AllocatorState from allocator.rs; the group object is its dense id. -/
structure AllocatorState where
  group : Nat
  register_count : Nat
  spill_count : Nat
  spills : List Value
  unhandled : List Nat
  active : List Nat
  inactive : List Nat
deriving DecidableEq, Repr

/-- AllocatorState::get_spill from allocator.rs: reuse a returned slot or
open a fresh one. -/
def AllocatorState.get_spill (s : AllocatorState) : Value × AllocatorState :=
  match s.spills with
  | v :: rest => (v, { s with spills := rest })
  | [] =>
    (StackVal s.group s.spill_count, { s with spill_count := s.spill_count + 1 })

/-- AllocatorState::to_handled from allocator.rs: return a stack slot to the
free list. -/
def AllocatorState.to_handled (s : AllocatorState) (v : Value) : AllocatorState :=
  match v with
  | StackVal group slot => { s with spills := s.spills ++ [StackVal group slot] }
  | _ => s

/-- SplitConf from allocator.rs. -/
inductive SplitConf where
  | Between (start end_ : Nat)
  | At (pos : Nat)

/-- Comparator key of sort_unhandled: get_interval(id).start(). -/
def Graph.start_of (g : Graph) (i : Nat) : Option Nat := do
  let iv ← alookup g.intervals i
  iv.start

/-- Comparator of sort_unhandled: lstart <= rstart, looked up on the graph
(panics when an id is missing or has no ranges). -/
def Graph.le_start (g : Graph) (a b : Nat) : Option Bool := do
  let sa ← g.start_of a
  let sb ← g.start_of b
  pure (decide (sa ≤ sb))

/-- Sorted insertion w.r.t. a monadic comparator. -/
def insert_sorted (cmp : Nat → Nat → Option Bool) (x : Nat) :
    List Nat → Option (List Nat)
  | [] => some [x]
  | y :: t => do
    let b ← cmp x y
    if b then pure (x :: y :: t)
    else do
      let t' ← insert_sorted cmp x t
      pure (y :: t')

/-- Sort w.r.t. a monadic comparator by repeated insertion. The source calls
extra::sort::quick_sort (library code outside this repository) with the
le_start comparator; any sort agreeing with the comparator yields a list
that is non-decreasing in start position, which is the only property the
development relies on (tie order is left unspecified by an unstable
quicksort, and no theorem here depends on it). -/
def sortM (cmp : Nat → Nat → Option Bool) (l : List Nat) : Option (List Nat) :=
  l.foldlM (fun acc x => insert_sorted cmp x acc) []

/-- AllocatorHelper::sort_unhandled from allocator.rs: sort the unhandled
list by increasing interval start position. -/
def Graph.sort_unhandled (g : Graph) (state : AllocatorState) :
    Option AllocatorState := do
  let u ← sortM g.le_start state.unhandled
  pure { state with unhandled := u }

/-- AllocatorHelper::get_hint from allocator.rs: the register of the hinted
interval, when it has one (asserting equal groups). -/
def Graph.get_hint (g : Graph) (current : Nat) : Option (Option Nat) := do
  let iv ← alookup g.intervals current
  match iv.hint with
  | some id => do
    let hIv ← alookup g.intervals id
    match hIv.value with
    | RegisterVal hg r => do
      let _ ← assert_opt (hg = iv.value.group)
      pure (some r)
    | _ => pure none
  | none => pure none

/-- AllocatorHelper::iter_active from allocator.rs: every active interval
paired with its register (fail! when one is not register-valued). -/
def Graph.iter_active_list (g : Graph) (active : List Nat) :
    Option (List (Nat × Nat)) :=
  active.mapM (fun id => do
    let iv ← alookup g.intervals id
    match iv.value with
    | RegisterVal _ reg => pure (id, reg)
    | _ => none)

/-- AllocatorHelper::iter_intersecting from allocator.rs: the inactive
intervals intersecting current, with register and first intersection
position. -/
def Graph.iter_intersecting_list (g : Graph) (current : Nat)
    (inactive : List Nat) : Option (List (Nat × Nat × Nat)) := do
  let l ← inactive.mapM (fun id => do
    let inter ← g.get_intersection id current
    match inter with
    | some pos => do
      let iv ← alookup g.intervals id
      match iv.value with
      | RegisterVal _ reg => pure (some (id, reg, pos))
      | _ => none
    | none => pure (none : Option (Nat × Nat × Nat)))
  pure (l.filterMap (fun x => x))

/-- Vec indexing (panics out of range). -/
def vec_get (l : List Nat) (i : Nat) : Option Nat :=
  l.get? i

/-- Vec element assignment (panics out of range). -/
def vec_set (l : List Nat) (i v : Nat) : Option (List Nat) :=
  if i < l.length then some (l.set i v) else none

/-- Register selection loop shared by allocate_free_reg and
allocate_blocked_reg (the source duplicates this code in both functions):
pick the index maximizing the array entry, preferring the hinted register on
ties; the accumulator is (reg, max_pos) starting from (0, 0). -/
def select_max (hint : Option Nat) (arr : List Nat) : Nat × Nat :=
  arr.enum.foldl (fun (acc : Nat × Nat) (p : Nat × Nat) =>
    match hint with
    | some h =>
      if p.2 > acc.2 ∨ (h = p.1 ∧ p.2 = acc.2) then (p.1, p.2) else acc
    | none =>
      if p.2 > acc.2 then (p.1, p.2) else acc) (0, 0)

/-- Register selection of the two allocation policies: a fixed use forces
its register (reg, arr[reg]); otherwise select_max with the hint. -/
def Graph.select_reg (g : Graph) (current : Nat) (hint : Option Nat)
    (arr : List Nat) : Option (Nat × Nat) := do
  let iv ← alookup g.intervals current
  match iv.next_fixed_use 0 with
  | some u =>
    match u.kind with
    | UseFixed _ r => do
      let mp ← vec_get arr r
      pure (r, mp)
    | _ => none
  | none => pure (select_max hint arr)

/-- AllocatorHelper::split from allocator.rs: split at the configured or
optimal position, push the child onto unhandled and re-sort. -/
def Graph.split (g : Graph) (current : Nat) (conf : SplitConf)
    (state : AllocatorState) : Option (Nat × Graph × AllocatorState) := do
  let split_pos ←
    match conf with
    | SplitConf.Between s e => g.optimal_split_pos state.group s e
    | SplitConf.At p => pure p
  let rg ← g.split_at current split_pos
  let state := { state with unhandled := state.unhandled ++ [rg.1] }
  let state ← rg.2.sort_unhandled state
  pure (rg.1, rg.2, state)

/-- Population of free_pos in allocate_free_reg: 0 for every active
register, min of intersection position for inactive ones. -/
def Graph.afr_free_pos (g : Graph) (current : Nat) (state : AllocatorState) :
    Option (List Nat) := do
  let free_pos := List.replicate state.register_count uint_max
  let act ← g.iter_active_list state.active
  let free_pos ← act.foldlM (fun fp (p : Nat × Nat) => vec_set fp p.2 0) free_pos
  let ints ← g.iter_intersecting_list current state.inactive
  ints.foldlM (fun fp (t : Nat × Nat × Nat) => do
    let cur ← vec_get fp t.2.1
    if t.2.2 < cur then vec_set fp t.2.1 t.2.2 else pure fp) free_pos

/-- Register assignment concluding allocate_free_reg (value :=
RegisterVal(from_uint(group, reg)); return true). -/
def Graph.afr_give_reg (g : Graph) (current : Nat) (state : AllocatorState)
    (reg : Nat) : Option (Bool × Graph × AllocatorState) := do
  let g ← g.upd_interval current
    (fun i => { i with value := RegisterVal state.group reg })
  pure (true, g, state)

/-- Special case of the split in allocate_free_reg: splitting right before a
call is pointless unless current has a register use exactly at max_pos; the
result none/some mirrors the failure return false vs the chosen position. -/
def Graph.afr_adjust_split (g : Graph) (current split_pos0 max_pos group : Nat) :
    Option (Option Nat) := do
  let needAdj ←
    if split_pos0 = iprev max_pos then g.clobbers group max_pos
    else pure false
  if needAdj then do
    let iv ← alookup g.intervals current
    match iv.next_use max_pos with
    | some u => if u.pos = max_pos then pure (some max_pos) else pure none
    | none => pure none
  else
    pure (some split_pos0)

/-- Split branch of allocate_free_reg: split current at the optimal (or
adjusted) position, spill the child if it has no register uses, then give
current the register. -/
def Graph.afr_split_case (g : Graph) (current : Nat) (state : AllocatorState)
    (reg max_pos start : Nat) : Option (Bool × Graph × AllocatorState) := do
  let split_pos0 ← g.optimal_split_pos state.group start max_pos
  let adj ← g.afr_adjust_split current split_pos0 max_pos state.group
  match adj with
  | none => pure (false, g, state)
  | some split_pos => do
    let cg ← g.split current (SplitConf.At split_pos) state
    let cIv ← alookup cg.2.1.intervals cg.1
    match cIv.next_use 0 with
    | none => do
      let vs := cg.2.2.get_spill
      let g ← cg.2.1.upd_interval cg.1 (fun i => { i with value := vs.1 })
      g.afr_give_reg current vs.2 reg
    | some _ => cg.2.1.afr_give_reg current cg.2.2 reg

/-- Decision body of allocate_free_reg once reg and max_pos are selected. -/
def Graph.afr_body (g : Graph) (current : Nat) (state : AllocatorState)
    (reg max_pos : Nat) : Option (Bool × Graph × AllocatorState) := do
  let iv ← alookup g.intervals current
  let start ← iv.start
  let end_ ← iv.end_
  if max_pos ≥ end_ then
    -- Register is available for whole current's lifetime
    g.afr_give_reg current state reg
  else if inext start ≥ max_pos then
    -- Allocation is impossible
    pure (false, g, state)
  else
    -- Register is available for some part of current's lifetime
    g.afr_split_case current state reg max_pos start

/-- AllocatorHelper::allocate_free_reg from allocator.rs. -/
def Graph.allocate_free_reg (g : Graph) (current : Nat)
    (state : AllocatorState) : Option (Bool × Graph × AllocatorState) := do
  let hint ← g.get_hint current
  let free_pos ← g.afr_free_pos current state
  let rm ← g.select_reg current hint free_pos
  if rm.2 = 0 then
    -- All registers are blocked - failure
    pure (false, g, state)
  else
    g.afr_body current state rm.1 rm.2

/-- Spill position of split_and_spill: start if start is a clobber or a gap,
otherwise the position right before start (uint wrap on 0). -/
def Graph.sas_spill_pos (g : Graph) (group start : Nat) : Option Nat := do
  let c ← g.clobbers group start
  let cond ← if c then pure true else g.is_gap start
  pure (if cond then start else iprev start)

/-- Body of the split-and-spill loop for one interval using the contested
register: split before (or at) current's start, spill that child, then split
again before the child's next register use if any. -/
def Graph.sas_one (g : Graph) (state : AllocatorState) (start id : Nat) :
    Option (Graph × AllocatorState) := do
  let spill_pos ← g.sas_spill_pos state.group start
  let iv ← alookup g.intervals id
  let last_use ←
    match iv.last_use spill_pos with
    | some u => pure u.pos
    | none => iv.start
  let r ← g.split id (SplitConf.Between last_use spill_pos) state
  let spill_child := r.1
  let vs := r.2.2.get_spill
  let g ← r.2.1.upd_interval spill_child (fun i => { i with value := vs.1 })
  let state := vs.2
  let scIv ← alookup g.intervals spill_child
  match scIv.next_use spill_pos with
  | some u => do
    let r2 ← g.split id (SplitConf.Between spill_pos u.pos) state
    pure (r2.2.1, r2.2.2)
  | none => pure (g, state)

/-- AllocatorHelper::split_and_spill from allocator.rs: split and spill every
active interval, and every inactive interval intersecting current, that
holds current's register. -/
def Graph.split_and_spill (g : Graph) (current : Nat) (state : AllocatorState) :
    Option (Graph × AllocatorState) := do
  let iv ← alookup g.intervals current
  let reg ←
    match iv.value with
    | RegisterVal _ r => some r
    | _ => none
  let start ← iv.start
  -- Filter out intersecting intervals
  let act ← g.iter_active_list state.active
  let ints ← g.iter_intersecting_list current state.inactive
  let to_split := (act.filter (fun p => p.2 == reg)).map Prod.fst ++
                  (ints.filter (fun t => t.2.1 == reg)).map Prod.fst
  -- Split and spill!
  to_split.foldlM (fun (gs : Graph × AllocatorState) id =>
    gs.1.sas_one gs.2 start id) (g, state)

/-- Population of use_pos in allocate_blocked_reg from the non-fixed active
and intersecting inactive intervals: min over next_use(start). -/
def Graph.abr_use_pos (g : Graph) (start : Nat) (act : List (Nat × Nat))
    (ints : List (Nat × Nat × Nat)) (use_pos0 : List Nat) : Option (List Nat) := do
  let use_pos ← act.foldlM (fun up (p : Nat × Nat) => do
      let iv ← alookup g.intervals p.1
      if iv.fixed then pure up
      else
        match iv.next_use start with
        | some u => do
          let cur ← vec_get up p.2
          if u.pos < cur then vec_set up p.2 u.pos else pure up
        | none => pure up) use_pos0
  ints.foldlM (fun up (t : Nat × Nat × Nat) => do
      let iv ← alookup g.intervals t.1
      if iv.fixed then pure up
      else
        match iv.next_use start with
        | some u => do
          let cur ← vec_get up t.2.1
          if u.pos < cur then vec_set up t.2.1 u.pos else pure up
        | none => pure up) use_pos

/-- Population of block_pos (and clamping of use_pos) in
allocate_blocked_reg from the fixed intervals: active fixed block the
register now (0), intersecting fixed block it at the intersection. -/
def Graph.abr_block_pos (g : Graph) (act : List (Nat × Nat))
    (ints : List (Nat × Nat × Nat)) (use_pos0 block_pos0 : List Nat) :
    Option (List Nat × List Nat) := do
  let ub ← act.foldlM (fun (ub : List Nat × List Nat) (p : Nat × Nat) => do
      let iv ← alookup g.intervals p.1
      if iv.fixed then do
        let bp ← vec_set ub.2 p.2 0
        let up ← vec_set ub.1 p.2 0
        pure (up, bp)
      else pure ub) (use_pos0, block_pos0)
  ints.foldlM (fun (ub : List Nat × List Nat) (t : Nat × Nat × Nat) => do
      let iv ← alookup g.intervals t.1
      if iv.fixed then do
        let bp ← vec_set ub.2 t.2.1 t.2.2
        let cur ← vec_get ub.1 t.2.1
        let up ← if t.2.2 < cur then vec_set ub.1 t.2.1 t.2.2 else pure ub.1
        pure (up, bp)
      else pure ub) ub

/-- Spill-current branch of allocate_blocked_reg (first_use exists but is
beyond every use_pos): spill current and split before the first register
use. -/
def Graph.abr_spill_current (g : Graph) (current : Nat)
    (state : AllocatorState) (start upos : Nat) :
    Option (Except String (Graph × AllocatorState)) := do
  let vs := state.get_spill
  let g ← g.upd_interval current (fun i => { i with value := vs.1 })
  let r ← g.split current (SplitConf.Between start upos) vs.2
  pure (Except.ok (r.2.1, r.2.2))

/-- Blocking-fixed-interval split of the assign branch of
allocate_blocked_reg: if block_pos[reg] is at or before current's end, split
between start and that position. -/
def Graph.abr_maybe_block_split (g : Graph) (current : Nat)
    (state : AllocatorState) (start bp end_ : Nat) :
    Option (Graph × AllocatorState) :=
  if bp ≤ end_ then do
    let r ← g.split current (SplitConf.Between start bp) state
    pure (r.2.1, r.2.2)
  else pure (g, state)

/-- Assign-register branch of allocate_blocked_reg: give current the chosen
register, split before a blocking fixed interval if any, then split and
spill the intervals holding the register. -/
def Graph.abr_assign (g : Graph) (current : Nat) (state : AllocatorState)
    (start reg : Nat) (block_pos : List Nat) :
    Option (Except String (Graph × AllocatorState)) := do
  let g ← g.upd_interval current
    (fun i => { i with value := RegisterVal state.group reg })
  let bp ← vec_get block_pos reg
  let iv ← alookup g.intervals current
  let end_ ← iv.end_
  let gs ← g.abr_maybe_block_split current state start bp end_
  let r2 ← gs.1.split_and_spill current gs.2
  pure (Except.ok (r2.1, r2.2))

/-- Decision step of allocate_blocked_reg on first_use: no use at all means
plain spill; a first use farther than max_pos means spill and split (or the
unsolvable-input error when it demands a register right at start); otherwise
assign the register. -/
def Graph.abr_decide (g : Graph) (current : Nat) (state : AllocatorState)
    (start reg max_pos : Nat) (block_pos : List Nat)
    (first_use : Option Use) :
    Option (Except String (Graph × AllocatorState)) :=
  match first_use with
  | some u =>
    if max_pos < u.pos then
      if u.pos = start then
        pure (Except.error "Incorrect input, allocation impossible")
      else
        g.abr_spill_current current state start u.pos
    else
      g.abr_assign current state start reg block_pos
  | none => do
    -- Spill current, it has no uses
    let vs := state.get_spill
    let g ← g.upd_interval current (fun i => { i with value := vs.1 })
    pure (Except.ok (g, vs.2))

/-- Read-only prefix of allocate_blocked_reg: populate use_pos and
block_pos and select the register; returns (start, (reg, max_pos),
block_pos). -/
def Graph.abr_selection (g : Graph) (current : Nat) (state : AllocatorState) :
    Option (Nat × (Nat × Nat) × List Nat) := do
  let iv ← alookup g.intervals current
  let start ← iv.start
  let hint ← g.get_hint current
  let act ← g.iter_active_list state.active
  let ints ← g.iter_intersecting_list current state.inactive
  let use_pos ← g.abr_use_pos start act ints
    (List.replicate state.register_count uint_max)
  let ub ← g.abr_block_pos act ints use_pos
    (List.replicate state.register_count uint_max)
  let rm ← g.select_reg current hint ub.1
  pure (start, rm, ub.2)

/-- AllocatorHelper::allocate_blocked_reg from allocator.rs. -/
def Graph.allocate_blocked_reg (g : Graph) (current : Nat)
    (state : AllocatorState) :
    Option (Except String (Graph × AllocatorState)) := do
  let sel ← g.abr_selection current state
  let iv2 ← alookup g.intervals current
  g.abr_decide current state sel.1 sel.2.1.1 sel.2.1.2 sel.2.2 (iv2.next_use 0)

/-- Initialization of walk_intervals: iterate intervals in ascending id
order (SmallIntMap), pushing fixed intervals with ranges to active and
virtual ones to unhandled. -/
def Graph.wi_init_state (g : Graph) (group register_count : Nat) :
    AllocatorState :=
  (List.range g.interval_id).foldl (fun (s : AllocatorState) i =>
    match alookup g.intervals i with
    | some interval =>
      if interval.value.group = group ∧ interval.ranges.length > 0 then
        if interval.fixed then { s with active := s.active ++ [interval.id] }
        else { s with unhandled := s.unhandled ++ [interval.id] }
      else s
    | none => s)
    ⟨group, register_count, 0, [], [], [], []⟩

/-- Migration step of the walk loop: active intervals not covering the
position move to inactive (if still live) or out, inactive ones covering it
move back to active; values of intervals leaving active/inactive are
collected and stack slots among them returned to the spill free list. -/
def Graph.wi_migrate (g : Graph) (state : AllocatorState) (position : Nat) :
    Option AllocatorState := do
  -- active => inactive or handled
  let r1 ← state.active.foldlM
    (fun (acc : List Nat × List Nat × List Value) id => do
      let iv ← alookup g.intervals id
      if iv.covers position then
        pure (acc.1 ++ [id], acc.2.1, acc.2.2)
      else do
        let e ← iv.end_
        let inact := if position ≤ e then acc.2.1 ++ [id] else acc.2.1
        pure (acc.1, inact, acc.2.2 ++ [iv.value]))
    ([], state.inactive, [])
  -- inactive => active or handled
  let r2 ← r1.2.1.foldlM
    (fun (acc : List Nat × List Nat × List Value) id => do
      let iv ← alookup g.intervals id
      if iv.covers position then
        pure (acc.1, acc.2.1 ++ [id], acc.2.2 ++ [iv.value])
      else do
        let e ← iv.end_
        if position < e then pure (acc.1 ++ [id], acc.2.1, acc.2.2)
        else pure (acc.1, acc.2.1, acc.2.2))
    ([], r1.1, r1.2.2)
  let state := { state with active := r2.2.1, inactive := r2.1 }
  -- Return handled spills
  pure (r2.2.2.foldl AllocatorState.to_handled state)

/-- Allocation step of the walk loop: skip non-virtual currents, otherwise
try the free-register policy and fall back to the blocked-register one. -/
def Graph.wi_alloc (g : Graph) (current : Nat) (state : AllocatorState) :
    Option (Except String (Graph × AllocatorState)) := do
  let iv ← alookup g.intervals current
  if iv.value.is_virtual then do
    let r ← g.allocate_free_reg current state
    if r.1 then pure (Except.ok (r.2.1, r.2.2))
    else r.2.1.allocate_blocked_reg current r.2.2
  else pure (Except.ok (g, state))

/-- Post-allocation step of the walk loop: push current onto active when it
now holds a register. -/
def Graph.wi_post (g : Graph) (current : Nat) (state : AllocatorState) :
    Option AllocatorState := do
  let iv ← alookup g.intervals current
  match iv.value with
  | RegisterVal _ _ => pure { state with active := state.active ++ [current] }
  | _ => pure state

/-- Main loop of walk_intervals, with fuel for termination. The trace is
pure instrumentation recording, at each pop, the popped interval's start
position and the start positions of the remaining unhandled list; it is
threaded through without influencing any decision. -/
def Graph.wi_loop (g : Graph) (fuel : Nat) (state : AllocatorState)
    (trace : List (Nat × List Nat)) :
    Option (Except String (Graph × AllocatorState × List (Nat × List Nat))) :=
  match fuel with
  | 0 => none
  | fuel + 1 =>
    match state.unhandled with
    | [] => some (Except.ok (g, state, trace))
    | current :: rest => do
      let position ← g.start_of current
      let restStarts ← rest.mapM g.start_of
      let trace := trace ++ [(position, restStarts)]
      let state ← g.wi_migrate { state with unhandled := rest } position
      let r ← g.wi_alloc current state
      match r with
      | Except.error e => pure (Except.error e)
      | Except.ok (g, state) => do
        let state ← g.wi_post current state
        g.wi_loop fuel state trace

/-- AllocatorHelper::walk_intervals from allocator.rs, for one group whose
registers() has register_count elements; returns the group's spill count,
the final graph, and the instrumentation trace. -/
def Graph.walk_intervals (g : Graph) (group register_count fuel : Nat) :
    Option (Except String (Nat × Graph × List (Nat × List Nat))) := do
  let state := g.wi_init_state group register_count
  let state ← g.sort_unhandled state
  let r ← g.wi_loop fuel state []
  match r with
  | Except.error e => pure (Except.error e)
  | Except.ok (g, state, trace) => pure (Except.ok (state.spill_count, g, trace))

/-- Modelled from the spec: GroupHelper::use_reg, the use-kind sentinel a
group provides for temporaries (section 6: a use_reg() sentinel use-kind for
temporaries; the GroupHelper trait implementation is not under src/). The
spec's range builder adds a Register use for each temporary. -/
def use_reg (g : Nat) : UseKind := UseRegister g

/-- Mutation through Graph::get_mut_interval composed with a fallible
interval method (add_range / add_use / first_range assignment). -/
def Graph.upd_interval_m (g : Graph) (id : Nat)
    (f : Interval → Option Interval) : Option Graph := do
  let iv ← alookup g.intervals id
  let iv' ← f iv
  pure { g with intervals := aupdate g.intervals id (fun _ => iv') }

/-- Clobber section of build_ranges for one instruction: overwrite
self.physical[group] with an empty map (as the source does), and for a
clobbering instruction add a one-position range to every physical register
interval of the group, found through the snapshot taken at entry. -/
def Graph.br_clobber_ranges (g : Graph)
    (physical : List (Nat × List (Nat × Nat))) (groups : List Nat)
    (registers : Nat → List Nat) (instr : Instruction) (instr_id : Nat) :
    Option Graph :=
  groups.foldlM (fun g group => do
    let g := { g with physical := ainsert g.physical group [] }
    if instr.kind.clobbers group then do
      (registers group).foldlM (fun g reg => do
        let gmap ← alookup physical group
        let ivid ← alookup gmap reg
        g.upd_interval_m ivid (fun i => i.add_range instr_id (inext instr_id)))
        g
    else pure g) g

/-- Range fixing of the output section of build_ranges: shorten the first
range's start when the output already has ranges (it was live-out), else add
a short one-position range. -/
def Graph.br_output_range (g : Graph) (output pos : Nat) (nonempty : Bool) :
    Option Graph :=
  if nonempty then
    g.upd_interval_m output (fun i => i.set_first_range_start pos)
  else
    g.upd_interval_m output (fun i => i.add_range pos (inext pos))

/-- Output section of build_ranges for one instruction (continued): pick
the definition position, fix the range, add the result-kind use. -/
def Graph.br_output (g : Graph) (instr : Instruction) (instr_id : Nat) :
    Option Graph :=
  match instr.output with
  | some output => do
    let oIv ← alookup g.intervals output
    let group := oIv.value.group
    let pos := if instr.kind.clobbers group then inext instr_id else instr_id
    let g ← g.br_output_range output pos (decide (oIv.ranges.length ≠ 0))
    let out_kind ← instr.kind.result_kind
    g.upd_interval_m output (fun i => i.add_use out_kind pos)
  | none => pure g

/-- Temporary section of build_ranges for one temporary: error if the
instruction clobbers the temporary's group, else add the one-position range
and the register use. -/
def Graph.br_tmp_one (g : Graph) (instr : Instruction) (instr_id tmp : Nat) :
    Option (Except String Graph) := do
  let tIv ← alookup g.intervals tmp
  let group := tIv.value.group
  if instr.kind.clobbers group then
    pure (Except.error "Call instruction can't have temporary registers")
  else do
    let g ← g.upd_interval_m tmp (fun i => i.add_range instr_id (inext instr_id))
    let g ← g.upd_interval_m tmp (fun i => i.add_use (use_reg group) instr_id)
    pure (Except.ok g)

/-- Error-short-circuiting fold shared by the build_ranges loops: the source
returns the Err immediately, which the fold models by passing a reached
error unchanged through the remaining elements. -/
def err_fold {α : Type} (step : Graph → α → Option (Except String Graph))
    (g : Graph) (l : List α) : Option (Except String Graph) :=
  l.foldlM (fun r x =>
    match r with
    | Except.error e => pure (Except.error e)
    | Except.ok g => step g x) (Except.ok g)

/-- Temporary section of build_ranges for one instruction: the temporaries
in order, stopping at the first error. -/
def Graph.br_tmps (g : Graph) (instr : Instruction) (instr_id : Nat) :
    Option (Except String Graph) :=
  err_fold (fun g tmp => g.br_tmp_one instr instr_id tmp) g instr.temporary

/-- Range extension of the input section of build_ranges: when the input
interval does not cover this position, add the range from block start. -/
def Graph.br_input_extend (g : Graph) (input block_from instr_id : Nat)
    (covered : Bool) : Option Graph :=
  if covered then pure g
  else g.upd_interval_m input (fun i => i.add_range block_from instr_id)

/-- Input section of build_ranges for one instruction (continued): extend
each input interval to this position when not already covered and add the
operand-kind use. -/
def Graph.br_inputs (g : Graph) (instr : Instruction)
    (instr_id block_from : Nat) : Option Graph :=
  instr.inputs.enum.foldlM (fun g (p : Nat × Nat) => do
    let input ← g.get_output p.2
    let iIv ← alookup g.intervals input
    let g ← g.br_input_extend input block_from instr_id (iIv.covers instr_id)
    g.upd_interval_m input (fun i => i.add_use (instr.kind.use_kind p.1) instr_id))
    g

/-- One instruction of build_ranges: clobber ranges, output, temporaries
(possible error), inputs. -/
def Graph.br_instr (g : Graph) (physical : List (Nat × List (Nat × Nat)))
    (groups : List Nat) (registers : Nat → List Nat)
    (block_from instr_id : Nat) : Option (Except String Graph) := do
  let instr ← alookup g.instructions instr_id
  let g ← g.br_clobber_ranges physical groups registers instr instr_id
  let g ← g.br_output instr instr_id
  let r ← g.br_tmps instr instr_id
  match r with
  | Except.error e => pure (Except.error e)
  | Except.ok g => do
    let g ← g.br_inputs instr instr_id block_from
    pure (Except.ok g)

/-- One block of build_ranges: speculative whole-block ranges for the
live-out intervals, then the block's instructions in reverse. -/
def Graph.br_block (g : Graph) (physical : List (Nat × List (Nat × Nat)))
    (groups : List Nat) (registers : Nat → List Nat) (block_id : Nat) :
    Option (Except String Graph) := do
  let block ← alookup g.blocks block_id
  let block_from ← block.start
  let block_to ← block.end_
  let g ← block.live_out.foldlM (fun g int_id =>
      g.upd_interval_m int_id (fun i => i.add_range block_from block_to)) g
  err_fold (fun g instr_id => g.br_instr physical groups registers block_from instr_id)
    g block.instructions.reverse

/-- Consecutive-fixed-use splitting of split_fixed for one interval. -/
def Graph.split_fixed_one (g : Graph) (id : Nat) : Option Graph := do
  let iv ← alookup g.intervals id
  let uses := iv.uses.filter (fun u => u.kind.is_fixed)
  (List.range (uses.length - 1)).foldlM (fun g i => do
    let u1 ← uses.get? i
    let u2 ← uses.get? (i + 1)
    let split_pos ← g.optimal_split_pos u1.kind.group u1.pos u2.pos
    let r ← g.split_at id split_pos
    pure r.2) g

/-- AllocatorHelper::split_fixed from allocator.rs: split every interval
with fixed uses between each consecutive pair of them. -/
def Graph.split_fixed (g : Graph) : Option Graph := do
  let list := (List.range g.interval_id).filterMap (fun i =>
    match alookup g.intervals i with
    | some interval =>
      if interval.uses.any (fun u => u.kind.is_fixed) then some interval.id
      else none
    | none => none)
  list.foldlM Graph.split_fixed_one g

/-- AllocatorHelper::build_ranges from allocator.rs, with the GroupHelper
collaborators passed as the group list and per-group register lists. -/
def Graph.build_ranges (g : Graph) (groups : List Nat)
    (registers : Nat → List Nat) (blocks : List Nat) :
    Option (Except String Graph) := do
  let physical := g.physical
  let r ← err_fold (fun g block_id => g.br_block physical groups registers block_id)
    g blocks.reverse
  match r with
  | Except.error e => pure (Except.error e)
  | Except.ok g => do
    -- Now split all intervals with fixed uses
    let g ← g.split_fixed
    pure (Except.ok g)

/-- Concrete blocked-register scenario: one register; interval 0 demands a
register exactly at its start position 2, while the fixed physical interval
1 holds register 0 and is active (use_pos[0] = block_pos[0] = 0). -/
def c2_graph : Graph :=
  ⟨none, 0, 0, 2,
   [(0, mkIv 0 (VirtualVal 0) [⟨2, 6⟩] [⟨UseRegister 0, 2⟩]),
    (1, ⟨1, RegisterVal 0 0, none, [⟨0, 8⟩], none, [], [], true⟩)],
   [], [], [], [], false, []⟩

/-- Allocator state for the c2_graph scenario: register count 1, the fixed
interval active. -/
def c2_state : AllocatorState := ⟨0, 1, 0, [], [], [1], []⟩

/-- Concrete blocked-register scenario with only UseAny uses: one register,
nothing active or inactive, interval 0 covering [0,2) with a single UseAny
use at 0. -/
def c10_graph : Graph :=
  ⟨none, 0, 0, 1,
   [(0, mkIv 0 (VirtualVal 0) [⟨0, 2⟩] [⟨UseAny 0, 0⟩])],
   [], [], [], [], false, []⟩

/-- Allocator state for the c10_graph scenario. -/
def c10_state : AllocatorState := ⟨0, 1, 0, [], [], [], []⟩

/-- Result of the blocked-register policy on the c10_graph scenario. -/
def c10_res : Except String (Graph × AllocatorState) :=
  (c10_graph.allocate_blocked_reg 0 c10_state).getD (Except.error "")

/-- Compatibility relation along build_ranges processing: blocks and
instructions are untouched and every interval keeps its value (ranges and
uses may change). -/
def br_compat (g g' : Graph) : Prop :=
  g'.blocks = g.blocks ∧ g'.instructions = g.instructions ∧
  ∀ i, (alookup g'.intervals i).map Interval.value
     = (alookup g.intervals i).map Interval.value

/-- The error message of the build_ranges temporary rule (allocator.rs). -/
def brmsg : String := "Call instruction can't have temporary registers"

/-- A temporary offends the build_ranges rule when its interval exists and
the instruction itself clobbers the interval value's group. -/
def br_offends_tmp (g : Graph) (instr : Instruction) (tmp : Nat) : Prop :=
  ∃ v, (alookup g.intervals tmp).map Interval.value = some v ∧
    instr.kind.clobbers v.group = true

/-- An instruction offends when one of its temporaries does. -/
def br_offends_instr (g : Graph) (instr_id : Nat) : Prop :=
  ∃ instr, alookup g.instructions instr_id = some instr ∧
    ∃ tmp ∈ instr.temporary, br_offends_tmp g instr tmp

/-- A block offends when one of its instructions does. -/
def br_offends_block (g : Graph) (block_id : Nat) : Prop :=
  ∃ block, alookup g.blocks block_id = some block ∧
    ∃ instr_id ∈ block.instructions, br_offends_instr g instr_id

/-- Concrete offending graph: one block with one instruction whose kind
clobbers every group and which carries interval 0 as a temporary. -/
def c8_graph : Graph :=
  ⟨none, 1, 1, 1,
   [(0, mkIv 0 (VirtualVal 0) [] [])],
   [(0, mkBlock 0 [0])],
   [(0, ⟨0, 0, InstrKind.User ⟨fun _ => true, [0], fun _ => UseAny 0, none⟩,
     none, [], [0], true⟩)],
   [], [], false, []⟩

/-- Concrete allocation scenario for get_value: one interval with range
[0,5) and register uses at 0 and 4; one register suffices, no splits. -/
def c1_graph : Graph :=
  ⟨none, 0, 0, 1,
   [(0, mkIv 0 (VirtualVal 0) [⟨0, 5⟩] [⟨UseRegister 0, 0⟩, ⟨UseRegister 0, 4⟩])],
   [], [], [], [], false, []⟩

/-- The graph after the allocator walk on c1_graph. -/
def c1_res : Graph :=
  match (c1_graph.walk_intervals 0 1 10).getD (Except.error "") with
  | Except.ok (_, g, _) => g
  | Except.error _ => c1_graph


/-- Concrete walk scenario for the pop order: one register; interval 0 with
range [1,13) and register uses at 1 and 11, interval 1 with range [8,13) and
a register use at 8; gaps at the odd instruction ids. When interval 1 takes
the register at position 8, split_and_spill splits interval 0 at the gap 7
and pushes the spilled child (start 7 < 8) back onto unhandled. -/
def c7_graph : Graph :=
  ⟨none, 1, 14, 2,
   [(0, mkIv 0 (VirtualVal 0) [⟨1, 13⟩] [⟨UseRegister 0, 1⟩, ⟨UseRegister 0, 11⟩]),
    (1, mkIv 1 (VirtualVal 0) [⟨8, 13⟩] [⟨UseRegister 0, 8⟩])],
   [(0, mkBlock 0 [0,1,2,3,4,5,6,7,8,9,10,11,12,13])],
   [(0, mkInstr 0 0 (InstrKind.ToPhi 0)), (1, mkInstr 1 0 InstrKind.Gap),
    (2, mkInstr 2 0 (InstrKind.ToPhi 0)), (3, mkInstr 3 0 InstrKind.Gap),
    (4, mkInstr 4 0 (InstrKind.ToPhi 0)), (5, mkInstr 5 0 InstrKind.Gap),
    (6, mkInstr 6 0 (InstrKind.ToPhi 0)), (7, mkInstr 7 0 InstrKind.Gap),
    (8, mkInstr 8 0 (InstrKind.ToPhi 0)), (9, mkInstr 9 0 InstrKind.Gap),
    (10, mkInstr 10 0 (InstrKind.ToPhi 0)), (11, mkInstr 11 0 InstrKind.Gap),
    (12, mkInstr 12 0 (InstrKind.ToPhi 0)), (13, mkInstr 13 0 InstrKind.Gap)],
   [], [], false, []⟩

/-- The run of the walker on c7_graph. -/
def c7_run : Except String (Nat × Graph × List (Nat × List Nat)) :=
  (c7_graph.walk_intervals 0 1 20).getD (Except.error "")

/-- Final graph of the c7_graph run. -/
def c7_final : Graph :=
  match c7_run with
  | Except.ok (_, g, _) => g
  | Except.error _ => c7_graph

/-- Instrumentation trace of the c7_graph run: at each pop, the popped
interval's start and the starts of the remaining unhandled intervals. -/
def c7_trace : List (Nat × List Nat) :=
  match c7_run with
  | Except.ok (_, _, t) => t
  | Except.error _ => []

/-- Comparator success of sort_unhandled as a relation: both starts exist
and the left one is not larger. -/
def Graph.le_start_ok (g : Graph) (a b : Nat) : Prop :=
  g.le_start a b = some true

/-- The walker invariant: the unhandled list is sorted by interval start
position on the current graph. -/
def wi_inv (g : Graph) (state : AllocatorState) : Prop :=
  state.unhandled.Pairwise g.le_start_ok

/-- Two graphs agreeing on every interval start position. -/
def same_starts (g g' : Graph) : Prop :=
  ∀ i, g'.start_of i = g.start_of i

/-! Basic lemmas about the association-list operations. -/

theorem alookup_cons {α : Type} (p : Nat × α) (t : List (Nat × α)) (k : Nat) :
    alookup (p :: t) k = if p.1 = k then some p.2 else alookup t k := by
  by_cases h : p.1 = k
  · simp [alookup, List.find?, h]
  · have hb : (p.1 == k) = false := by simpa using h
    simp [alookup, List.find?, hb, h]

theorem alookup_ainsert {α : Type} (m : List (Nat × α)) (k : Nat) (v : α) :
    alookup (ainsert m k v) k = some v := by
  simp [ainsert, alookup_cons]

theorem alookup_ainsert_ne {α : Type} (m : List (Nat × α)) (k k' : Nat) (v : α)
    (h : k' ≠ k) : alookup (ainsert m k v) k' = alookup m k' := by
  have : k ≠ k' := fun e => h e.symm
  simp [ainsert, alookup_cons, this]

theorem alookup_aupdate {α : Type} (m : List (Nat × α)) (k : Nat) (f : α → α) :
    alookup (aupdate m k f) k = (alookup m k).map f := by
  induction m with
  | nil => simp [alookup, aupdate]
  | cons p t ih =>
    by_cases h : p.1 = k
    · simp [aupdate, h, alookup_cons]
    · simp [aupdate, h, alookup_cons, ih]

theorem alookup_aupdate_ne {α : Type} (m : List (Nat × α)) (k k' : Nat) (f : α → α)
    (h : k' ≠ k) : alookup (aupdate m k f) k' = alookup m k' := by
  induction m with
  | nil => simp [aupdate]
  | cons p t ih =>
    have hks : k ≠ k' := fun e => h e.symm
    by_cases hp : p.1 = k
    · have hne : p.1 ≠ k' := by rw [hp]; exact hks
      simp [aupdate, hp, alookup_cons, hne, ih, hks]
    · by_cases hq : p.1 = k'
      · simp [aupdate, hp, alookup_cons, hq, h]
      · simp [aupdate, hp, alookup_cons, hq, ih]


/-- Generic invariant preservation through List.foldlM in the Option monad. -/
theorem foldlM_option_inv {α β : Type} (P : β → Prop) (f : β → α → Option β)
    (hf : ∀ b a r, P b → f b a = some r → P r) :
    ∀ (l : List α) (b r : β), P b → l.foldlM f b = some r → P r := by
  intro l
  induction l with
  | nil => intro b r hb h; simp [List.foldlM] at h; simpa [← h] using hb
  | cons a t ih =>
    intro b r hb h
    rw [List.foldlM_cons] at h
    rcases Option.bind_eq_some.mp h with ⟨b1, hab, hrest⟩
    exact ih b1 r (hf b a b1 hb hab) hrest

/-- Elimination for Graph.child_loop returning a hit: the returned id is the
id field of the first interval in the list accepted by the predicate. -/
theorem Graph.child_loop_some_elim (g : Graph) (p : Interval → Option Bool)
    (l : List Nat) (c : Nat) (h : g.child_loop p l = some (some c)) :
    ∃ x ∈ l, ∃ iv, alookup g.intervals x = some iv ∧ iv.id = c ∧ p iv = some true := by
  induction l with
  | nil => simp [Graph.child_loop] at h
  | cons a t ih =>
    rw [Graph.child_loop] at h
    rcases Option.bind_eq_some.mp h with ⟨iv, hiv, h2⟩
    rcases Option.bind_eq_some.mp h2 with ⟨hit, hp, hres⟩
    by_cases hb : hit
    · subst hb
      rw [if_pos rfl] at hres
      refine ⟨a, List.mem_cons_self a t, iv, hiv, ?_, hp⟩
      simpa using hres
    · have hb' : hit = false := Bool.eq_false_iff.mpr hb
      subst hb'
      rw [if_neg (by simp)] at hres
      rcases ih hres with ⟨x, hx, r⟩
      exact ⟨x, List.mem_cons_of_mem a hx, r⟩

/-- Elimination for Graph.child_loop returning no hit: every listed interval
exists and the predicate rejected it. -/
theorem Graph.child_loop_none_elim (g : Graph) (p : Interval → Option Bool)
    (l : List Nat) (h : g.child_loop p l = some none) :
    ∀ x ∈ l, ∃ iv, alookup g.intervals x = some iv ∧ p iv = some false := by
  induction l with
  | nil => intro x hx; simp at hx
  | cons a t ih =>
    rw [Graph.child_loop] at h
    rcases Option.bind_eq_some.mp h with ⟨iv, hiv, h2⟩
    rcases Option.bind_eq_some.mp h2 with ⟨hit, hp, hres⟩
    by_cases hb : hit
    · subst hb; rw [if_pos rfl] at hres; simp at hres
    · have hb' : hit = false := Bool.eq_false_iff.mpr hb
      subst hb'
      rw [if_neg (by simp)] at hres
      intro x hx
      rcases List.mem_cons.mp hx with rfl | hx
      · exact ⟨iv, hiv, hp⟩
      · exact ih hres x hx

/-- Assertion elimination: a successful assert_opt proves its condition. -/
theorem assert_opt_some {c : Prop} [Decidable c] {u : Unit}
    (h : assert_opt c = some u) : c := by
  by_cases hc : c
  · exact hc
  · rw [assert_opt, if_neg hc] at h; cases h

/-- Characterization of a successful upd_interval. -/
theorem Graph.upd_interval_spec (g : Graph) (i : Nat) (f : Interval → Interval)
    (g' : Graph) (h : g.upd_interval i f = some g') :
    (∃ iv, alookup g.intervals i = some iv) ∧
    g' = { g with intervals := aupdate g.intervals i f } := by
  unfold Graph.upd_interval at h
  rcases Option.bind_eq_some.mp h with ⟨iv, hiv, h2⟩
  cases h2
  exact ⟨⟨iv, hiv⟩, rfl⟩

/-- The covering interval found by find_split_parent really covers pos. -/
theorem Graph.find_split_parent_covers (g : Graph) (parent pos sp : Nat)
    (h : g.find_split_parent parent pos = some sp) :
    ∃ spIv, alookup g.intervals sp = some spIv ∧ spIv.covers pos = true := by
  unfold Graph.find_split_parent at h
  rcases Option.bind_eq_some.mp h with ⟨pIv, hpIv, h2⟩
  by_cases hc : pIv.covers pos = true
  · rw [if_pos hc] at h2
    cases h2
    exact ⟨pIv, hpIv, hc⟩
  · rw [if_neg hc] at h2
    rcases Option.bind_eq_some.mp h2 with ⟨spc, _, h3⟩
    rcases Option.bind_eq_some.mp h3 with ⟨spIv, hspIv, h4⟩
    by_cases hc2 : spIv.covers pos = true
    · rw [if_pos hc2] at h4
      cases h4
      exact ⟨spIv, hspIv, hc2⟩
    · rw [if_neg hc2] at h4; cases h4

/-- Characterization of the range-moving phase of split_at. -/
theorem Graph.split_at_ranges_spec (g : Graph) (sp child pos : Nat) (g' : Graph)
    (h : g.split_at_ranges sp child pos = some g') :
    ∃ spIv, alookup g.intervals sp = some spIv ∧
      g'.intervals =
        aupdate (aupdate (aupdate g.intervals child
            (fun i => { i with ranges := (split_ranges pos spIv.ranges).2 })) sp
            (fun i => { i with ranges := (split_ranges pos spIv.ranges).1 })) child
            (fun i => { i with hint := some sp }) ∧
      g'.instructions = g.instructions := by
  unfold Graph.split_at_ranges at h
  rcases Option.bind_eq_some.mp h with ⟨spIv, hspIv, h⟩
  rcases Option.bind_eq_some.mp h with ⟨u1, hu1, h⟩
  rcases Option.bind_eq_some.mp h with ⟨u2, hu2, h⟩
  rcases Option.bind_eq_some.mp h with ⟨g1, hg1, h⟩
  rcases Option.bind_eq_some.mp h with ⟨g2, hg2, h⟩
  rcases (Graph.upd_interval_spec _ _ _ _ hg1) with ⟨_, rfl⟩
  rcases (Graph.upd_interval_spec _ _ _ _ hg2) with ⟨_, rfl⟩
  rcases (Graph.upd_interval_spec _ _ _ _ h) with ⟨_, rfl⟩
  exact ⟨spIv, hspIv, rfl, rfl⟩

/-- Characterization of the use-moving phase of split_at. -/
theorem Graph.split_at_uses_spec (g : Graph) (sp child group pos : Nat) (g' : Graph)
    (h : g.split_at_uses sp child group pos = some g') :
    ∃ instr spIv, alookup g.instructions pos = some instr ∧
      alookup g.intervals sp = some spIv ∧
      g'.intervals =
        aupdate (aupdate g.intervals child
            (fun i => { i with uses :=
              (split_uses (instr.kind.clobbers group) pos spIv.uses).2 })) sp
            (fun i => { i with uses :=
              (split_uses (instr.kind.clobbers group) pos spIv.uses).1 }) ∧
      g'.instructions = g.instructions := by
  unfold Graph.split_at_uses at h
  rcases Option.bind_eq_some.mp h with ⟨instr, hinstr, h⟩
  rcases Option.bind_eq_some.mp h with ⟨spIv, hspIv, h⟩
  rcases Option.bind_eq_some.mp h with ⟨g1, hg1, h⟩
  rcases (Graph.upd_interval_spec _ _ _ _ hg1) with ⟨_, rfl⟩
  rcases (Graph.upd_interval_spec _ _ _ _ h) with ⟨_, rfl⟩
  exact ⟨instr, spIv, hinstr, hspIv, rfl, rfl⟩

/-- Characterization of the child-registration phase of split_at. -/
theorem Graph.split_at_add_child_spec (g : Graph) (parent child pos : Nat)
    (g' : Graph) (h : g.split_at_add_child parent child pos = some g') :
    ∃ pIv index, alookup g.intervals parent = some pIv ∧
      g'.intervals =
        aupdate (aupdate g.intervals parent
            (fun i => { i with children := insertAt i.children index child })) child
            (fun i => { i with parent := some parent }) ∧
      g'.instructions = g.instructions := by
  unfold Graph.split_at_add_child at h
  rcases Option.bind_eq_some.mp h with ⟨pIv, hpIv, h⟩
  rcases Option.bind_eq_some.mp h with ⟨index, hindex, h⟩
  rcases Option.bind_eq_some.mp h with ⟨g1, hg1, h⟩
  rcases (Graph.upd_interval_spec _ _ _ _ hg1) with ⟨_, rfl⟩
  rcases (Graph.upd_interval_spec _ _ _ _ h) with ⟨_, rfl⟩
  exact ⟨pIv, index, hpIv, rfl, rfl⟩

/-- C5 counterexample: child_at answers from the convex hull
start() <= pos < end(), not from the individual live ranges. In c5_graph
interval 0 has ranges [0,2) and [5,7): position 3 lies in the hole, no live
range covers it, yet child_at returns the interval. This refutes the claim
that child_at returns Some(c) only if some live range of c covers pos. -/
theorem C5_counterexample :
    c5_graph.child_at 0 3 = some (some 0) ∧
    (alookup c5_graph.intervals 0).map (fun iv => iv.covers 3) = some false := by
  decide

/-- C5 (amended): child_at(parent, pos) returns Some(c) only if c is the
parent or one of its children and pos lies in c's convex hull
start() <= pos < end() (which may include lifetime holes); it returns None
exactly when every one of them misses pos in this hull sense. -/
theorem C5_child_at_hull (g : Graph) (parent pos : Nat) (r : Option Nat)
    (h : g.child_at parent pos = some r) :
    ∃ pIv, alookup g.intervals parent = some pIv ∧
      ((∀ c, r = some c → ∃ x, (x = parent ∨ x ∈ pIv.children) ∧
          ∃ iv s e, alookup g.intervals x = some iv ∧ iv.id = c ∧
            iv.start = some s ∧ iv.end_ = some e ∧ s ≤ pos ∧ pos < e) ∧
       (r = none → ∀ x, (x = parent ∨ x ∈ pIv.children) →
          ∃ iv s e, alookup g.intervals x = some iv ∧
            iv.start = some s ∧ iv.end_ = some e ∧ ¬(s ≤ pos ∧ pos < e))) := by
  unfold Graph.child_at at h
  rcases Option.bind_eq_some.mp h with ⟨pIv, hpIv, hloop⟩
  refine ⟨pIv, hpIv, ?_, ?_⟩
  · rintro c rfl
    rcases Graph.child_loop_some_elim g _ _ c hloop with ⟨x, hx, iv, hiv, hid, hp⟩
    rcases Option.bind_eq_some.mp hp with ⟨s, hs, hp2⟩
    rcases Option.bind_eq_some.mp hp2 with ⟨e, he, hp3⟩
    have hcond : s ≤ pos ∧ pos < e := by
      have h3 := hp3
      simp at h3
      exact h3
    exact ⟨x, by simpa using hx, iv, s, e, hiv, hid, hs, he, hcond.1, hcond.2⟩
  · rintro rfl x hx
    have := Graph.child_loop_none_elim g _ _ hloop x (by simpa using hx)
    rcases this with ⟨iv, hiv, hp⟩
    rcases Option.bind_eq_some.mp hp with ⟨s, hs, hp2⟩
    rcases Option.bind_eq_some.mp hp2 with ⟨e, he, hp3⟩
    refine ⟨iv, s, e, hiv, hs, he, ?_⟩
    intro hc
    have : (decide (s ≤ pos) && decide (pos < e)) = false := by
      simpa using hp3
    simp [hc.1, hc.2] at this

/-- C5 witness: the amended theorem applied to c5_graph at position 3. -/
theorem C5_witness :
    ∃ pIv, alookup c5_graph.intervals 0 = some pIv ∧
      ((∀ c, (some 0 : Option Nat) = some c → ∃ x, (x = 0 ∨ x ∈ pIv.children) ∧
          ∃ iv s e, alookup c5_graph.intervals x = some iv ∧ iv.id = c ∧
            iv.start = some s ∧ iv.end_ = some e ∧ s ≤ 3 ∧ 3 < e) ∧
       ((some 0 : Option Nat) = none → ∀ x, (x = 0 ∨ x ∈ pIv.children) →
          ∃ iv s e, alookup c5_graph.intervals x = some iv ∧
            iv.start = some s ∧ iv.end_ = some e ∧ ¬(s ≤ 3 ∧ 3 < e))) :=
  C5_child_at_hull c5_graph 0 3 (some 0) (by decide)

/-- Each osp_step keeps best_pos at most end_. -/
theorem Graph.osp_step_le (g : Graph) (start end_ : Nat) (acc : Nat × Nat)
    (bid : Nat) (r : Nat × Nat) (hacc : acc.1 ≤ end_)
    (h : g.osp_step start end_ acc bid = some r) : r.1 ≤ end_ := by
  unfold Graph.osp_step at h
  cases halo : alookup g.blocks bid with
  | none => rw [halo] at h; dsimp only at h; cases h; exact hacc
  | some block =>
    rw [halo] at h
    dsimp only at h
    by_cases hd : block.loop_depth ≤ acc.2
    · rw [if_pos hd] at h
      rcases Option.bind_eq_some.mp h with ⟨bt, _, hif⟩
      by_cases hin : start < bt ∧ bt ≤ end_
      · rw [if_pos hin] at hif
        cases hif
        exact hin.2
      · rw [if_neg hin] at hif
        cases hif
        exact hacc
    · rw [if_neg hd] at h
      cases h
      exact hacc

/-- The osp_fold result keeps best_pos at most end_. -/
theorem Graph.osp_fold_le (g : Graph) (start end_ : Nat) (r : Nat × Nat)
    (h : g.osp_fold start end_ = some r) : r.1 ≤ end_ :=
  foldlM_option_inv (fun acc => acc.1 ≤ end_) (g.osp_step start end_)
    (fun b a r hb hr => g.osp_step_le start end_ b a r hb hr)
    (List.range g.block_id) (end_, uint_max) r (Nat.le_refl end_) h

/-- C3 counterexample: when invoked with start = end, optimal_split_pos
takes the fast-path return and yields p = end = start, violating start < p
(and p = 5 is not a gap or clobber position: there is no instruction 5 at
all in the empty graph). This refutes the claim for the pair start = end. -/
theorem C3_counterexample :
    Graph.new.optimal_split_pos 0 5 5 = some 5 ∧
    ¬(5 < 5 ∧ 5 ≤ 5 ∧ (Graph.new.is_gap 5 = some true ∨
                        Graph.new.clobbers 0 5 = some true)) := by
  constructor
  · rfl
  · intro hc
    exact absurd hc.1 (by omega)

/-- C3 (amended): for start < end on a flattened graph (every position up to
end holds an instruction, which is a gap exactly at the odd ids), whenever
optimal_split_pos(group, start, end) returns p without an assertion failure,
then start < p, p <= end, and p is a gap position or a clobber position of
the group. The original claim fails only for the degenerate start = end
fast path. -/
theorem C3_optimal_split_pos (g : Graph) (group start end_ p : Nat)
    (h1 : start < end_)
    (hL : ∀ q, q ≤ end_ → g.is_gap q = some (decide (q % 2 = 1)))
    (h : g.optimal_split_pos group start end_ = some p) :
    start < p ∧ p ≤ end_ ∧
      (g.is_gap p = some true ∨ g.clobbers group p = some true) := by
  unfold Graph.optimal_split_pos at h
  rw [if_neg (by omega : ¬ start = end_)] at h
  rcases Option.bind_eq_some.mp h with ⟨bd, hfold, h⟩
  have hble : bd.1 ≤ end_ := g.osp_fold_le start end_ bd hfold
  rcases Option.bind_eq_some.mp h with ⟨bp, hbp, h⟩
  rcases Option.bind_eq_some.mp h with ⟨u, hu, h⟩
  have hfin : start < bp ∧ bp ≤ end_ := assert_opt_some hu
  have hpbp : p = bp := by
    cases h
    rfl
  rcases hfin with ⟨hsp, hpe⟩
  subst hpbp
  refine ⟨hsp, hpe, ?_⟩
  unfold Graph.osp_adjust at hbp
  rcases Option.bind_eq_some.mp hbp with ⟨gap, hgap, hbp⟩
  rcases Option.bind_eq_some.mp hbp with ⟨clob, hclob, hbp⟩
  by_cases hcase : (!gap && !clob) = true
  · -- decrement branch: p = bd.1 - 1 and bd.1 is even, so p is an odd gap
    rw [if_pos hcase] at hbp
    rcases Option.bind_eq_some.mp hbp with ⟨u2, hu2, hbp⟩
    have hge : start + 1 ≤ bd.1 := assert_opt_some hu2
    have hpeq : p = bd.1 - 1 := by
      cases hbp
      rfl
    have hgf : gap = false := by
      cases gap
      · rfl
      · simp at hcase
    have hbd : g.is_gap bd.1 = some (decide (bd.1 % 2 = 1)) := hL bd.1 hble
    rw [hgap] at hbd
    have hbde : ¬ (bd.1 % 2 = 1) := by
      intro hodd
      rw [hgf] at hbd
      simp [hodd] at hbd
    left
    have hodd : (bd.1 - 1) % 2 = 1 := by omega
    rw [hpeq, hL (bd.1 - 1) (by omega), hodd]
    simp
  · -- no decrement: p = bd.1 and the asserted disjunction was checked
    rw [if_neg hcase] at hbp
    have hpeq : p = bd.1 := by
      cases hbp
      rfl
    have hgc : gap = true ∨ clob = true := by
      cases gap <;> cases clob <;> simp_all
    subst hpeq
    rcases hgc with hg | hc
    · left; rw [hgap, hg]
    · right; rw [hclob, hc]

/-- C3 witness: the amended theorem applied to the flattened fragment
c3_graph with start 1 and end 3 (result position 3, an odd gap). -/
theorem C3_witness :
    1 < 3 ∧ 3 ≤ 3 ∧ (c3_graph.is_gap 3 = some true ∨
                      c3_graph.clobbers 0 3 = some true) :=
  C3_optimal_split_pos c3_graph 0 1 3 3 (by decide) (by decide) (by decide)

/-- C4: the assertions in Block::add_successor / add_predecessor are checked
before the push (assert!(len() <= 2); push), so a third edge is accepted
without any failure: three add_successor calls on a fresh block succeed and
leave it with 3 successors, and likewise for predecessors. This contradicts
the documented invariant that a block has at most 2 successors and at most 2
predecessors. -/
theorem C4_third_edge_accepted :
    ((((Block.new Graph.new).1.add_successor 1).bind
        (fun b => b.add_successor 2)).bind
        (fun b => b.add_successor 3)).map (fun b => b.successors.length)
      = some 3 ∧
    ((((Block.new Graph.new).1.add_predecessor 1).bind
        (fun b => b.add_predecessor 2)).bind
        (fun b => b.add_predecessor 3)).map (fun b => b.predecessors.length)
      = some 3 := by
  decide

/-- C9: an instruction created by Graph::phi is born with its added flag set
(phi sets it immediately after creation), and for every block,
add_existing on that phi id fails the assert!(!added) check, so a phi can
never be appended to any block instruction list. -/
theorem C9_phi_never_addable (g : Graph) (group block : Nat) :
    (alookup (g.phi group).2.instructions (g.phi group).1).map Instruction.added
      = some true ∧
    (g.phi group).2.add_existing block (g.phi group).1 = none := by
  have hlook : (alookup (g.phi group).2.instructions (g.phi group).1).map
      Instruction.added = some true := by
    simp [Graph.phi, Instruction.new, Instruction.new_empty, Interval.new,
          InstrKind.result_kind, InstrKind.temporary,
          alookup_aupdate, alookup_ainsert]
  refine ⟨hlook, ?_⟩
  unfold Graph.add_existing
  cases hal : alookup (g.phi group).2.instructions (g.phi group).1 with
  | none => rfl
  | some instr =>
    rw [hal] at hlook
    have hadd : instr.added = true := by simpa using hlook
    simp [hadd, assert_opt]

theorem Graph.with_gap_fields (g : Graph) (i : Nat) (f : GapState → GapState) :
    (g.with_gap i f).intervals = g.intervals ∧
    (g.with_gap i f).instructions = g.instructions := by
  unfold Graph.with_gap
  cases alookup g.gaps i <;> simp

theorem C6_split_at_use_partition (g : Graph) (id pos child : Nat) (g' : Graph)
    (h : g.split_at id pos = some (child, g')) :
    ∃ iv iv2 sp instr spIv cIv spIv',
      alookup g.intervals id = some iv ∧
      child = g.interval_id ∧
      alookup (Interval.new g iv.value.group).2.intervals id = some iv2 ∧
      (Interval.new g iv.value.group).2.find_split_parent (iv2.parent.getD id) pos
        = some sp ∧
      alookup g.instructions pos = some instr ∧
      alookup g.intervals sp = some spIv ∧
      alookup g'.intervals child = some cIv ∧
      alookup g'.intervals sp = some spIv' ∧
      cIv.hint = some sp ∧
      cIv.uses = (split_uses (instr.kind.clobbers iv.value.group) pos spIv.uses).2 ∧
      spIv'.uses = (split_uses (instr.kind.clobbers iv.value.group) pos spIv.uses).1 := by
  unfold Graph.split_at at h
  rcases Option.bind_eq_some.mp h with ⟨iv, hiv, h⟩
  rcases Option.bind_eq_some.mp h with ⟨ivStart, hst, h⟩
  rcases Option.bind_eq_some.mp h with ⟨u1, hu1, h⟩
  rcases Option.bind_eq_some.mp h with ⟨atc, hatc, h⟩
  rcases Option.bind_eq_some.mp h with ⟨u2, hu2, h⟩
  rcases Option.bind_eq_some.mp h with ⟨iv2, hiv2, h⟩
  rcases Option.bind_eq_some.mp h with ⟨sp, hsp, h⟩
  rcases Option.bind_eq_some.mp h with ⟨sac, hsac, h⟩
  rcases Option.bind_eq_some.mp h with ⟨dm, hdm, h⟩
  rcases Option.bind_eq_some.mp h with ⟨g4, hg4, h⟩
  rcases Option.bind_eq_some.mp h with ⟨g5, hg5, h⟩
  rcases Option.bind_eq_some.mp h with ⟨g6, hg6, h⟩
  have hch : child = g.interval_id ∧ g' = g6 := by
    have h2 := h
    simp only [Option.pure_def, Option.some.injEq, Prod.mk.injEq] at h2
    exact ⟨h2.1.symm, h2.2.symm⟩
  obtain ⟨rfl, rfl⟩ := hch
  have hcid : (Interval.new g iv.value.group).1 = g.interval_id := rfl
  rw [hcid] at hg4 hg5 hg6
  have hI2 : (Interval.new g iv.value.group).2.intervals
      = ainsert g.intervals g.interval_id
          ⟨g.interval_id, VirtualVal iv.value.group, none, [], none, [], [], false⟩ := rfl
  have hfresh : alookup (Interval.new g iv.value.group).2.intervals g.interval_id
      = some ⟨g.interval_id, VirtualVal iv.value.group, none, [], none, [], [], false⟩ := by
    rw [hI2]
    exact alookup_ainsert _ _ _
  obtain ⟨spIv2, hspIv2, hcov⟩ := Graph.find_split_parent_covers _ _ _ _ hsp
  have hspne : sp ≠ g.interval_id := by
    intro he
    rw [he, hfresh] at hspIv2
    cases hspIv2
    simp [Interval.covers] at hcov
  have hspg : alookup g.intervals sp = some spIv2 := by
    rw [hI2, alookup_ainsert_ne _ _ _ _ hspne] at hspIv2
    exact hspIv2
  have hpne : iv2.parent.getD id ≠ g.interval_id := by
    intro he
    rw [he] at hsp
    unfold Graph.find_split_parent at hsp
    rw [hfresh] at hsp
    simp [Interval.covers, List.foldlM, hfresh] at hsp
  -- normalize the graph on which the range phase ran
  have hg4' : ∃ gr : Graph, gr.split_at_ranges sp g.interval_id pos
        = some g4 ∧
      gr.intervals = (Interval.new g iv.value.group).2.intervals ∧
      gr.instructions = (Interval.new g iv.value.group).2.instructions := by
    refine ⟨_, hg4, ?_, ?_⟩
    · by_cases hdm2 : dm = true
      · rw [if_pos hdm2]
        exact (Graph.with_gap_fields _ _ _).1
      · rw [if_neg hdm2]
    · by_cases hdm2 : dm = true
      · rw [if_pos hdm2]
        exact (Graph.with_gap_fields _ _ _).2
      · rw [if_neg hdm2]
  obtain ⟨gr, hg4r, hgrI, hgrInstr⟩ := hg4'
  obtain ⟨spIv3, hspIv3, hI4, hInstr4⟩ := Graph.split_at_ranges_spec _ _ _ _ _ hg4r
  have hsp3 : spIv3 = spIv2 := by
    rw [hgrI, hI2, alookup_ainsert_ne _ _ _ _ hspne, hspg] at hspIv3
    exact (Option.some.injEq _ _ ▸ hspIv3).symm
  rw [hsp3] at hI4
  have hidne : g.interval_id ≠ sp := fun e => hspne e.symm
  obtain ⟨instr, spIv4, hinstr4, hspIv4, hI5, hInstr5⟩ :=
    Graph.split_at_uses_spec _ _ _ _ _ _ hg5
  have hinstrg : alookup g.instructions pos = some instr := by
    rw [hInstr4, hgrInstr] at hinstr4
    exact hinstr4
  have hg4sp : alookup g4.intervals sp
      = some { spIv2 with ranges := (split_ranges pos spIv2.ranges).1 } := by
    rw [hI4, alookup_aupdate_ne _ _ _ _ hspne, alookup_aupdate,
        alookup_aupdate_ne _ _ _ _ hspne, hgrI, hI2,
        alookup_ainsert_ne _ _ _ _ hspne, hspg]
    rfl
  have hsp4 : spIv4 = { spIv2 with ranges := (split_ranges pos spIv2.ranges).1 } := by
    rw [hg4sp] at hspIv4
    exact (Option.some.injEq _ _ ▸ hspIv4).symm
  have hspuses : spIv4.uses = spIv2.uses := by rw [hsp4]
  rw [hspuses] at hI5
  have hg4ch : alookup g4.intervals g.interval_id
      = some (Interval.mk g.interval_id (VirtualVal iv.value.group) (some sp)
          ((split_ranges pos spIv2.ranges).2) none [] [] false) := by
    rw [hI4, alookup_aupdate, alookup_aupdate_ne _ _ _ _ hidne,
        alookup_aupdate, hgrI, hI2, alookup_ainsert]
    rfl
  have hg5sp : alookup g5.intervals sp
      = some { spIv2 with
                 ranges := (split_ranges pos spIv2.ranges).1,
                 uses := (split_uses (instr.kind.clobbers iv.value.group) pos spIv2.uses).1 } := by
    rw [hI5, alookup_aupdate, alookup_aupdate_ne _ _ _ _ hspne, hg4sp]
    rfl
  have hg5ch : alookup g5.intervals g.interval_id
      = some (Interval.mk g.interval_id (VirtualVal iv.value.group) (some sp)
          ((split_ranges pos spIv2.ranges).2) none
          ((split_uses (instr.kind.clobbers iv.value.group) pos spIv2.uses).2) [] false) := by
    rw [hI5, alookup_aupdate_ne _ _ _ _ hidne, alookup_aupdate, hg4ch]
    rfl
  obtain ⟨pIv5, index, hpIv5, hI6, hInstr6⟩ :=
    Graph.split_at_add_child_spec _ _ _ _ _ hg6
  have hidnp : g.interval_id ≠ iv2.parent.getD id := fun e => hpne e.symm
  have hfinch : alookup g'.intervals g.interval_id
      = some (Interval.mk g.interval_id (VirtualVal iv.value.group) (some sp)
          ((split_ranges pos spIv2.ranges).2) (some (iv2.parent.getD id))
          ((split_uses (instr.kind.clobbers iv.value.group) pos spIv2.uses).2) [] false) := by
    rw [hI6, alookup_aupdate, alookup_aupdate_ne _ _ _ _ hidnp, hg5ch]
    rfl
  have hfinsp : ∃ spIv', alookup g'.intervals sp = some spIv' ∧
      spIv'.uses = (split_uses (instr.kind.clobbers iv.value.group) pos spIv2.uses).1 := by
    by_cases hps : iv2.parent.getD id = sp
    · rw [hI6, alookup_aupdate_ne _ _ _ _ hspne, hps, alookup_aupdate, hg5sp]
      exact ⟨_, rfl, rfl⟩
    · have hspnp : sp ≠ iv2.parent.getD id := fun e => hps e.symm
      rw [hI6, alookup_aupdate_ne _ _ _ _ hspne, alookup_aupdate_ne _ _ _ _ hspnp, hg5sp]
      exact ⟨_, rfl, rfl⟩
  obtain ⟨spIv', hspIv', hspIvU⟩ := hfinsp
  exact ⟨iv, iv2, sp, instr, spIv2, _, spIv', hiv, rfl, hiv2, hsp, hinstrg, hspg,
    hfinch, hspIv', rfl, rfl, hspIvU⟩

/-- C6 witness: the use-partition theorem applied to the concrete split of
c6_graph at position 3 performed by c6_res. -/
theorem C6_witness :
    ∃ iv iv2 sp instr spIv cIv spIv',
      alookup c6_graph.intervals 0 = some iv ∧
      c6_res.1 = c6_graph.interval_id ∧
      alookup (Interval.new c6_graph iv.value.group).2.intervals 0 = some iv2 ∧
      (Interval.new c6_graph iv.value.group).2.find_split_parent
        (iv2.parent.getD 0) 3 = some sp ∧
      alookup c6_graph.instructions 3 = some instr ∧
      alookup c6_graph.intervals sp = some spIv ∧
      alookup c6_res.2.intervals c6_res.1 = some cIv ∧
      alookup c6_res.2.intervals sp = some spIv' ∧
      cIv.hint = some sp ∧
      cIv.uses = (split_uses (instr.kind.clobbers iv.value.group) 3 spIv.uses).2 ∧
      spIv'.uses = (split_uses (instr.kind.clobbers iv.value.group) 3 spIv.uses).1 :=
  C6_split_at_use_partition c6_graph 0 3 c6_res.1 c6_res.2 (by rfl)

theorem Graph.abr_spill_current_ok (g : Graph) (current : Nat)
    (state : AllocatorState) (start upos : Nat) (r)
    (h : g.abr_spill_current current state start upos = some r) :
    ∃ gs, r = Except.ok gs := by
  unfold Graph.abr_spill_current at h
  rcases Option.bind_eq_some.mp h with ⟨g1, _, h⟩
  rcases Option.bind_eq_some.mp h with ⟨r1, _, h⟩
  cases h
  exact ⟨_, rfl⟩

theorem Graph.abr_assign_ok (g : Graph) (current : Nat)
    (state : AllocatorState) (start reg : Nat) (block_pos : List Nat) (r)
    (h : g.abr_assign current state start reg block_pos = some r) :
    ∃ gs, r = Except.ok gs := by
  unfold Graph.abr_assign at h
  rcases Option.bind_eq_some.mp h with ⟨g1, _, h⟩
  rcases Option.bind_eq_some.mp h with ⟨bp, _, h⟩
  rcases Option.bind_eq_some.mp h with ⟨iv, _, h⟩
  rcases Option.bind_eq_some.mp h with ⟨e, _, h⟩
  rcases Option.bind_eq_some.mp h with ⟨gs1, _, h⟩
  rcases Option.bind_eq_some.mp h with ⟨r2, _, h⟩
  cases h
  exact ⟨_, rfl⟩

/-- C2: allocate_blocked_reg returns
Err("Incorrect input, allocation impossible") exactly when the first
register-demanding use of current exists, lies beyond the chosen register's
maximal use position (sel.2.1.2), and sits exactly at current's start
(sel.1); in every other case the blocked policy ends in Ok (spill, spill
and split, or register assignment with split-and-spill). -/
theorem C2_blocked_reg_error_iff (g : Graph) (current : Nat)
    (state : AllocatorState) (r : Except String (Graph × AllocatorState))
    (h : g.allocate_blocked_reg current state = some r) :
    (r = Except.error "Incorrect input, allocation impossible" ↔
      ∃ sel iv u, g.abr_selection current state = some sel ∧
        alookup g.intervals current = some iv ∧
        iv.next_use 0 = some u ∧ sel.2.1.2 < u.pos ∧ u.pos = sel.1) := by
  unfold Graph.allocate_blocked_reg at h
  rcases Option.bind_eq_some.mp h with ⟨sel, hsel, h⟩
  rcases Option.bind_eq_some.mp h with ⟨iv2, hiv2, hdec⟩
  unfold Graph.abr_decide at hdec
  constructor
  · intro hr
    subst hr
    cases hnu : iv2.next_use 0 with
    | none =>
      rw [hnu] at hdec
      dsimp only at hdec
      rcases Option.bind_eq_some.mp hdec with ⟨g1, _, hdec⟩
      cases hdec
    | some u =>
      rw [hnu] at hdec
      dsimp only at hdec
      by_cases hlt : sel.2.1.2 < u.pos
      · rw [if_pos hlt] at hdec
        by_cases heq : u.pos = sel.1
        · exact ⟨sel, iv2, u, hsel, hiv2, hnu, hlt, heq⟩
        · rw [if_neg heq] at hdec
          rcases Graph.abr_spill_current_ok _ _ _ _ _ _ hdec with ⟨gs, hgs⟩
          cases hgs
      · rw [if_neg hlt] at hdec
        rcases Graph.abr_assign_ok _ _ _ _ _ _ _ hdec with ⟨gs, hgs⟩
        cases hgs
  · rintro ⟨sel', iv', u, hsel', hiv', hnu, hlt, heq⟩
    have hseq : sel' = sel := by
      rw [hsel'] at hsel
      exact Option.some.inj hsel
    have hivq : iv' = iv2 := by
      rw [hiv'] at hiv2
      exact Option.some.inj hiv2
    subst hseq
    subst hivq
    rw [hnu] at hdec
    dsimp only at hdec
    rw [if_pos hlt, if_pos heq] at hdec
    cases hdec
    rfl

/-- C2 witness: the error equivalence applied to the concrete blocked
scenario c2_graph / c2_state, whose blocked allocation fails. -/
theorem C2_witness :
    ((Except.error "Incorrect input, allocation impossible" :
        Except String (Graph × AllocatorState))
      = Except.error "Incorrect input, allocation impossible" ↔
      ∃ sel iv u, c2_graph.abr_selection 0 c2_state = some sel ∧
        alookup c2_graph.intervals 0 = some iv ∧
        iv.next_use 0 = some u ∧ sel.2.1.2 < u.pos ∧ u.pos = sel.1) :=
  C2_blocked_reg_error_iff c2_graph 0 c2_state
    (Except.error "Incorrect input, allocation impossible") (by rfl)

/-- C10: next_use(after) returns the first use at or after the given
position whose kind is not UseAny, and returns none exactly when every use
at or after it is UseAny; consequently, in the blocked-register policy an
interval whose uses are all UseAny has no first use and is spilled to a
stack slot (its value becomes a StackVal) rather than given a register. -/
theorem C10_next_use_all_any_spilled :
    (∀ (iv : Interval) (after : Nat),
      (iv.next_use after = none ↔
        ∀ u ∈ iv.uses, after ≤ u.pos → u.kind.is_any = true) ∧
      (∀ u, iv.next_use after = some u →
        u ∈ iv.uses ∧ after ≤ u.pos ∧ u.kind.is_any = false)) ∧
    (∀ (g : Graph) (current : Nat) (state : AllocatorState)
       (r : Except String (Graph × AllocatorState)) (iv : Interval),
      alookup g.intervals current = some iv →
      (∀ u ∈ iv.uses, u.kind.is_any = true) →
      (∀ v ∈ state.spills, ∃ grp slot, v = StackVal grp slot) →
      g.allocate_blocked_reg current state = some r →
      ∃ g' s', r = Except.ok (g', s') ∧
        ∃ iv' grp slot, alookup g'.intervals current = some iv' ∧
          iv'.value = StackVal grp slot) := by
  have hfind : ∀ (iv : Interval) (after : Nat),
      (iv.next_use after = none ↔
        ∀ u ∈ iv.uses, after ≤ u.pos → u.kind.is_any = true) ∧
      (∀ u, iv.next_use after = some u →
        u ∈ iv.uses ∧ after ≤ u.pos ∧ u.kind.is_any = false) := by
    intro iv after
    constructor
    · rw [Interval.next_use, List.find?_eq_none]
      constructor
      · intro hall u hu hle
        have := hall u hu
        simp [hle] at this
        exact this
      · intro hall u hu
        by_cases hle : after ≤ u.pos
        · simp [hle, hall u hu hle]
        · simp [hle]
    · intro u hu
      have hp := List.find?_some hu
      have hm := List.mem_of_find?_eq_some hu
      simp only [Bool.and_eq_true, decide_eq_true_eq, Bool.not_eq_true'] at hp
      exact ⟨hm, hp.1, hp.2⟩
  refine ⟨hfind, ?_⟩
  intro g current state r iv hiv hall hspills h
  unfold Graph.allocate_blocked_reg at h
  rcases Option.bind_eq_some.mp h with ⟨sel, hsel, h⟩
  rcases Option.bind_eq_some.mp h with ⟨iv2, hiv2, hdec⟩
  have hivq : iv2 = iv := by
    rw [hiv] at hiv2
    exact (Option.some.inj hiv2).symm
  subst hivq
  have hnone : iv2.next_use 0 = none :=
    (hfind iv2 0).1.mpr (fun u hu _ => hall u hu)
  rw [hnone] at hdec
  dsimp only [Graph.abr_decide] at hdec
  rcases Option.bind_eq_some.mp hdec with ⟨g1, hg1, hdec⟩
  rcases (Graph.upd_interval_spec _ _ _ _ hg1) with ⟨⟨iv3, hiv3⟩, rfl⟩
  cases hdec
  refine ⟨_, _, rfl, ?_⟩
  have hlook : alookup (aupdate g.intervals current
      (fun i => { i with value := state.get_spill.1 })) current
      = some { iv3 with value := state.get_spill.1 } := by
    rw [alookup_aupdate, hiv3]
    rfl
  obtain ⟨grp, slot, hval⟩ : ∃ grp slot, state.get_spill.1 = StackVal grp slot := by
    cases hsp : state.spills with
    | nil =>
      refine ⟨state.group, state.spill_count, ?_⟩
      simp [AllocatorState.get_spill, hsp]
    | cons v rest =>
      obtain ⟨grp, slot, hv⟩ := hspills v (by rw [hsp]; exact List.mem_cons_self v rest)
      refine ⟨grp, slot, ?_⟩
      simp [AllocatorState.get_spill, hsp, hv]
  exact ⟨{ iv3 with value := state.get_spill.1 }, grp, slot, hlook, hval⟩

/-- C10 witness: both parts applied to the concrete all-UseAny interval of
c10_graph, whose blocked allocation spills to stack slot 0. -/
theorem C10_witness :
    ((mkIv 0 (VirtualVal 0) [⟨0, 2⟩] [⟨UseAny 0, 0⟩]).next_use 0 = none ↔
      ∀ u ∈ (mkIv 0 (VirtualVal 0) [⟨0, 2⟩] [⟨UseAny 0, 0⟩]).uses,
        0 ≤ u.pos → u.kind.is_any = true) ∧
    (∃ g' s', c10_res = Except.ok (g', s') ∧
      ∃ iv' grp slot, alookup g'.intervals 0 = some iv' ∧
        iv'.value = StackVal grp slot) :=
  ⟨(C10_next_use_all_any_spilled.1 (mkIv 0 (VirtualVal 0) [⟨0, 2⟩]
      [⟨UseAny 0, 0⟩]) 0).1,
   C10_next_use_all_any_spilled.2 c10_graph 0 c10_state c10_res
     (mkIv 0 (VirtualVal 0) [⟨0, 2⟩] [⟨UseAny 0, 0⟩])
     (by decide) (by decide) (by intro v hv; simp [c10_state] at hv) (by rfl)⟩

theorem br_compat_refl (g : Graph) : br_compat g g :=
  ⟨rfl, rfl, fun _ => rfl⟩

theorem br_compat_trans {g1 g2 g3 : Graph} (h12 : br_compat g1 g2)
    (h23 : br_compat g2 g3) : br_compat g1 g3 :=
  ⟨h23.1.trans h12.1, h23.2.1.trans h12.2.1,
   fun i => (h23.2.2 i).trans (h12.2.2 i)⟩

theorem Interval.add_range_value (iv : Interval) (a b : Nat) (iv' : Interval)
    (h : iv.add_range a b = some iv') : iv'.value = iv.value := by
  unfold Interval.add_range at h
  cases hr : iv.ranges with
  | nil => rw [hr] at h; cases h; rfl
  | cons r0 rest =>
    rw [hr] at h
    dsimp only at h
    by_cases hle : b ≤ r0.start
    · rw [if_pos hle] at h; cases h; rfl
    · rw [if_neg hle] at h; cases h

theorem Interval.add_use_value (iv : Interval) (k : UseKind) (p : Nat)
    (iv' : Interval) (h : iv.add_use k p = some iv') : iv'.value = iv.value := by
  unfold Interval.add_use at h
  cases hr : iv.uses with
  | nil => rw [hr] at h; cases h; rfl
  | cons u0 rest =>
    rw [hr] at h
    dsimp only at h
    by_cases hle : p < u0.pos ∨ u0.kind.group = k.group
    · rw [if_pos hle] at h; cases h; rfl
    · rw [if_neg hle] at h; cases h

theorem Interval.set_first_range_start_value (iv : Interval) (p : Nat)
    (iv' : Interval) (h : iv.set_first_range_start p = some iv') :
    iv'.value = iv.value := by
  unfold Interval.set_first_range_start at h
  cases hr : iv.ranges with
  | nil => rw [hr] at h; cases h
  | cons r0 rest => rw [hr] at h; cases h; rfl

/-- upd_interval_m with a value-preserving mutation yields br_compat. -/
theorem Graph.upd_interval_m_compat (g : Graph) (id : Nat)
    (f : Interval → Option Interval)
    (hf : ∀ iv iv', f iv = some iv' → iv'.value = iv.value)
    (g' : Graph) (h : g.upd_interval_m id f = some g') : br_compat g g' := by
  unfold Graph.upd_interval_m at h
  rcases Option.bind_eq_some.mp h with ⟨iv, hiv, h⟩
  rcases Option.bind_eq_some.mp h with ⟨iv', hiv', h⟩
  cases h
  refine ⟨rfl, rfl, fun i => ?_⟩
  by_cases hi : i = id
  · subst hi
    rw [alookup_aupdate, hiv]
    simp [hf iv iv' hiv']
  · rw [alookup_aupdate_ne _ _ _ _ hi]

/-- An error accumulator passes unchanged through err_fold. -/
theorem err_fold_error {α : Type}
    (step : Graph → α → Option (Except String Graph)) (l : List α) (e : String) :
    l.foldlM (fun r x =>
      match r with
      | Except.error e => pure (Except.error e)
      | Except.ok g => step g x) (Except.error e) = some (Except.error e) := by
  induction l with
  | nil => rfl
  | cons a t ih => simpa [List.foldlM_cons] using ih

/-- Characterization of err_fold: provided each step errors with the fixed
message exactly on condition C (stable under br_compat) and otherwise makes
br_compat progress, the fold errors iff some element satisfies C, and a
successful fold is br_compat. -/
theorem err_fold_char {α : Type} (msg : String)
    (step : Graph → α → Option (Except String Graph))
    (C : Graph → α → Prop)
    (Hstep : ∀ g x r, step g x = some r →
      ((r = Except.error msg ↔ C g x) ∧
       (∀ g', r = Except.ok g' → br_compat g g') ∧
       (∀ e, r = Except.error e → e = msg)))
    (Htrans : ∀ g g' x, br_compat g g' → (C g' x ↔ C g x)) :
    ∀ (l : List α) (g0 : Graph) (r : Except String Graph),
      err_fold step g0 l = some r →
      ((r = Except.error msg ↔ ∃ x ∈ l, C g0 x) ∧
       (∀ g', r = Except.ok g' → br_compat g0 g') ∧
       (∀ e, r = Except.error e → e = msg)) := by
  intro l
  induction l with
  | nil =>
    intro g0 r h
    cases h
    refine ⟨by simp, ?_, ?_⟩
    · intro g' hg'
      cases hg'
      exact br_compat_refl g0
    · intro e he
      cases he
  | cons a t ih =>
    intro g0 r h
    unfold err_fold at h
    rw [List.foldlM_cons] at h
    rcases Option.bind_eq_some.mp h with ⟨r1, hr1, hrest⟩
    cases r1 with
    | error e =>
      have hstep := Hstep g0 a _ hr1
      have hemsg : e = msg := hstep.2.2 e rfl
      subst hemsg
      have hC : C g0 a := hstep.1.mp rfl
      have hr : r = Except.error e := by
        have hef := err_fold_error step t e
        rw [hef] at hrest
        exact (Option.some.inj hrest).symm
      refine ⟨⟨fun _ => ⟨a, List.mem_cons_self a t, hC⟩, fun _ => hr⟩, ?_, ?_⟩
      · intro g' hg'
        rw [hr] at hg'
        cases hg'
      · intro e2 he2
        rw [hr] at he2
        cases he2
        rfl
    | ok g1 =>
      have hstep := Hstep g0 a _ hr1
      have hcomp : br_compat g0 g1 := hstep.2.1 g1 rfl
      have hnc : ¬ C g0 a := by
        intro hc
        have := hstep.1.mpr hc
        cases this
      have hrec := ih g1 r hrest
      refine ⟨?_, ?_, hrec.2.2⟩
      · rw [hrec.1]
        constructor
        · rintro ⟨x, hx, hcx⟩
          exact ⟨x, List.mem_cons_of_mem a hx, (Htrans g0 g1 x hcomp).mp hcx⟩
        · rintro ⟨x, hx, hcx⟩
          rcases List.mem_cons.mp hx with rfl | hx
          · exact absurd hcx hnc
          · exact ⟨x, hx, (Htrans g0 g1 x hcomp).mpr hcx⟩
      · intro g' hg'
        exact br_compat_trans hcomp (hrec.2.1 g' hg')

/-- Invariant-free br_compat preservation through a plain Option foldlM. -/
theorem foldlM_compat {α : Type} (step : Graph → α → Option Graph)
    (H : ∀ g x g', step g x = some g' → br_compat g g') :
    ∀ (l : List α) (g g' : Graph), l.foldlM step g = some g' → br_compat g g' := by
  intro l
  induction l with
  | nil =>
    intro g g' h
    cases h
    exact br_compat_refl g
  | cons a t ih =>
    intro g g' h
    rw [List.foldlM_cons] at h
    rcases Option.bind_eq_some.mp h with ⟨g1, hg1, hrest⟩
    exact br_compat_trans (H g a g1 hg1) (ih g1 g' hrest)

theorem br_compat_set_physical (g : Graph) (p : List (Nat × List (Nat × Nat))) :
    br_compat g { g with physical := p } :=
  ⟨rfl, rfl, fun _ => rfl⟩

/-- The clobber section of build_ranges only touches the physical map and
physical-register interval ranges. -/
theorem Graph.br_clobber_ranges_compat (g : Graph)
    (physical : List (Nat × List (Nat × Nat))) (groups : List Nat)
    (registers : Nat → List Nat) (instr : Instruction) (instr_id : Nat)
    (g' : Graph)
    (h : g.br_clobber_ranges physical groups registers instr instr_id = some g') :
    br_compat g g' := by
  unfold Graph.br_clobber_ranges at h
  refine foldlM_compat _ ?_ groups g g' h
  intro gg group g2 hstep
  dsimp only at hstep
  by_cases hc : instr.kind.clobbers group = true
  · rw [if_pos hc] at hstep
    refine br_compat_trans (br_compat_set_physical gg (ainsert gg.physical group [])) ?_
    refine foldlM_compat _ ?_ (registers group) _ g2 hstep
    intro g3 reg g4 hstep2
    rcases Option.bind_eq_some.mp hstep2 with ⟨gmap, _, hstep2⟩
    rcases Option.bind_eq_some.mp hstep2 with ⟨ivid, _, hstep2⟩
    exact Graph.upd_interval_m_compat g3 ivid _
      (fun iv iv' hiv => Interval.add_range_value iv _ _ iv' hiv) g4 hstep2
  · rw [if_neg hc] at hstep
    cases hstep
    exact br_compat_set_physical gg _

/-- The output range fix of build_ranges preserves interval values. -/
theorem Graph.br_output_range_compat (g : Graph) (output pos : Nat)
    (nonempty : Bool) (g' : Graph)
    (h : g.br_output_range output pos nonempty = some g') : br_compat g g' := by
  unfold Graph.br_output_range at h
  cases nonempty
  · rw [if_neg (by simp)] at h
    exact Graph.upd_interval_m_compat g output _
      (fun iv iv' hiv => Interval.add_range_value iv _ _ iv' hiv) g' h
  · rw [if_pos rfl] at h
    exact Graph.upd_interval_m_compat g output _
      (fun iv iv' hiv => Interval.set_first_range_start_value iv _ iv' hiv) g' h

/-- The output section of build_ranges preserves interval values. -/
theorem Graph.br_output_compat (g : Graph) (instr : Instruction)
    (instr_id : Nat) (g' : Graph)
    (h : g.br_output instr instr_id = some g') : br_compat g g' := by
  unfold Graph.br_output at h
  cases ho : instr.output with
  | none =>
    rw [ho] at h
    cases h
    exact br_compat_refl g
  | some output =>
    rw [ho] at h
    rcases Option.bind_eq_some.mp h with ⟨oIv, _, h⟩
    rcases Option.bind_eq_some.mp h with ⟨g1, hg1, h⟩
    rcases Option.bind_eq_some.mp h with ⟨out_kind, _, h⟩
    exact br_compat_trans (Graph.br_output_range_compat g output _ _ g1 hg1)
      (Graph.upd_interval_m_compat g1 output _
        (fun iv iv' hiv => Interval.add_use_value iv _ _ iv' hiv) g' h)

/-- The input range extension of build_ranges preserves interval values. -/
theorem Graph.br_input_extend_compat (g : Graph)
    (input block_from instr_id : Nat) (covered : Bool) (g' : Graph)
    (h : g.br_input_extend input block_from instr_id covered = some g') :
    br_compat g g' := by
  unfold Graph.br_input_extend at h
  cases covered
  · rw [if_neg (by simp)] at h
    exact Graph.upd_interval_m_compat g input _
      (fun iv iv' hiv => Interval.add_range_value iv _ _ iv' hiv) g' h
  · rw [if_pos rfl] at h
    cases h
    exact br_compat_refl g

/-- The input section of build_ranges preserves interval values. -/
theorem Graph.br_inputs_compat (g : Graph) (instr : Instruction)
    (instr_id block_from : Nat) (g' : Graph)
    (h : g.br_inputs instr instr_id block_from = some g') : br_compat g g' := by
  unfold Graph.br_inputs at h
  refine foldlM_compat _ ?_ instr.inputs.enum g g' h
  intro gg p g2 hstep
  rcases Option.bind_eq_some.mp hstep with ⟨input, _, hstep⟩
  rcases Option.bind_eq_some.mp hstep with ⟨iIv, _, hstep⟩
  rcases Option.bind_eq_some.mp hstep with ⟨g1, hg1, hstep⟩
  exact br_compat_trans
    (Graph.br_input_extend_compat gg input block_from instr_id _ g1 hg1)
    (Graph.upd_interval_m_compat g1 input _
      (fun iv iv' hiv => Interval.add_use_value iv _ _ iv' hiv) g2 hstep)

theorem br_offends_tmp_compat {g g' : Graph} (h : br_compat g g')
    (instr : Instruction) (tmp : Nat) :
    br_offends_tmp g' instr tmp ↔ br_offends_tmp g instr tmp := by
  unfold br_offends_tmp
  rw [h.2.2 tmp]

theorem br_offends_instr_compat {g g' : Graph} (h : br_compat g g')
    (instr_id : Nat) :
    br_offends_instr g' instr_id ↔ br_offends_instr g instr_id := by
  unfold br_offends_instr
  rw [h.2.1]
  constructor <;> rintro ⟨instr, hinstr, tmp, htmp, hoff⟩
  · exact ⟨instr, hinstr, tmp, htmp, (br_offends_tmp_compat h instr tmp).mp hoff⟩
  · exact ⟨instr, hinstr, tmp, htmp, (br_offends_tmp_compat h instr tmp).mpr hoff⟩

theorem br_offends_block_compat {g g' : Graph} (h : br_compat g g')
    (block_id : Nat) :
    br_offends_block g' block_id ↔ br_offends_block g block_id := by
  unfold br_offends_block
  rw [h.1]
  constructor <;> rintro ⟨b, hb, i, hi, hoff⟩
  · exact ⟨b, hb, i, hi, (br_offends_instr_compat h i).mp hoff⟩
  · exact ⟨b, hb, i, hi, (br_offends_instr_compat h i).mpr hoff⟩

/-- Full characterization of one temporary step of build_ranges: it errors
(with the fixed message) exactly on an offending temporary, and a successful
step is value-preserving. -/
theorem Graph.br_tmp_one_char (g : Graph) (instr : Instruction)
    (instr_id tmp : Nat) (r : Except String Graph)
    (h : g.br_tmp_one instr instr_id tmp = some r) :
    (r = Except.error brmsg ↔ br_offends_tmp g instr tmp) ∧
    (∀ g', r = Except.ok g' → br_compat g g') ∧
    (∀ e, r = Except.error e → e = brmsg) := by
  unfold Graph.br_tmp_one at h
  rcases Option.bind_eq_some.mp h with ⟨tIv, htIv, h⟩
  dsimp only at h
  by_cases hc : instr.kind.clobbers tIv.value.group = true
  · rw [if_pos hc] at h
    have hr : r = Except.error brmsg := (Option.some.inj h).symm
    subst hr
    refine ⟨⟨fun _ => ⟨tIv.value, by rw [htIv]; rfl, hc⟩, fun _ => rfl⟩, ?_, ?_⟩
    · intro g' hg'
      cases hg'
    · intro e he
      injection he with h1
      exact h1.symm
  · rw [if_neg hc] at h
    rcases Option.bind_eq_some.mp h with ⟨g1, hg1, h⟩
    rcases Option.bind_eq_some.mp h with ⟨g2, hg2, h⟩
    have hr : r = Except.ok g2 := (Option.some.inj h).symm
    subst hr
    refine ⟨⟨fun he => ?_, fun hoff => ?_⟩, ?_, ?_⟩
    · cases he
    · rcases hoff with ⟨v, hv, hcv⟩
      rw [htIv, Option.map_some'] at hv
      cases Option.some.inj hv
      exact absurd hcv hc
    · intro g' hg'
      injection hg' with h1
      subst h1
      exact br_compat_trans
        (Graph.upd_interval_m_compat g tmp _
          (fun iv iv' hiv => Interval.add_range_value iv _ _ iv' hiv) g1 hg1)
        (Graph.upd_interval_m_compat g1 tmp _
          (fun iv iv' hiv => Interval.add_use_value iv _ _ iv' hiv) g2 hg2)
    · intro e he
      cases he

/-- Elimination form of a successful upd_interval_m: the mutated interval and
the unchanged rest. -/
theorem Graph.upd_interval_m_spec (g : Graph) (id : Nat)
    (f : Interval → Option Interval) (g' : Graph)
    (h : g.upd_interval_m id f = some g') :
    ∃ iv iv', alookup g.intervals id = some iv ∧ f iv = some iv' ∧
      alookup g'.intervals id = some iv' ∧
      (∀ j, j ≠ id → alookup g'.intervals j = alookup g.intervals j) := by
  unfold Graph.upd_interval_m at h
  rcases Option.bind_eq_some.mp h with ⟨iv, hiv, h⟩
  rcases Option.bind_eq_some.mp h with ⟨iv', hiv', h⟩
  have hg : g' = { g with intervals := aupdate g.intervals id (fun _ => iv') } :=
    (Option.some.inj h).symm
  subst hg
  refine ⟨iv, iv', hiv, hiv', ?_, ?_⟩
  · show alookup (aupdate g.intervals id (fun _ => iv')) id = some iv'
    rw [alookup_aupdate, hiv]
    rfl
  · intro j hj
    exact alookup_aupdate_ne _ _ _ _ hj

/-- Action of a successful temporary step of build_ranges: the temporary's
interval gets the one-position range and the register use, nothing else
changes. -/
theorem Graph.br_tmp_one_ok (g : Graph) (instr : Instruction)
    (instr_id tmp : Nat) (g' : Graph)
    (h : g.br_tmp_one instr instr_id tmp = some (Except.ok g')) :
    ∃ iv iv1 iv2 : Interval,
      alookup g.intervals tmp = some iv ∧
      instr.kind.clobbers iv.value.group = false ∧
      iv.add_range instr_id (inext instr_id) = some iv1 ∧
      iv1.add_use (use_reg iv.value.group) instr_id = some iv2 ∧
      alookup g'.intervals tmp = some iv2 ∧
      (∀ j, j ≠ tmp → alookup g'.intervals j = alookup g.intervals j) := by
  unfold Graph.br_tmp_one at h
  rcases Option.bind_eq_some.mp h with ⟨tIv, htIv, h⟩
  dsimp only at h
  by_cases hc : instr.kind.clobbers tIv.value.group = true
  · rw [if_pos hc] at h
    exact Except.noConfusion (Option.some.inj h)
  · rw [if_neg hc] at h
    rcases Option.bind_eq_some.mp h with ⟨g1, hg1, h⟩
    rcases Option.bind_eq_some.mp h with ⟨g2, hg2, h⟩
    have hg' : g2 = g' := Except.ok.inj (Option.some.inj h)
    subst hg'
    rcases Graph.upd_interval_m_spec g tmp _ g1 hg1 with
      ⟨iva, iv1, hiva, hfa, hl1, hother1⟩
    rcases Graph.upd_interval_m_spec g1 tmp _ g2 hg2 with
      ⟨ivb, iv2, hivb, hfb, hl2, hother2⟩
    rw [htIv] at hiva
    cases Option.some.inj hiva
    rw [hl1] at hivb
    cases Option.some.inj hivb
    have hcf : instr.kind.clobbers tIv.value.group = false := by
      simpa using hc
    exact ⟨tIv, iv1, iv2, htIv, hcf, hfa, hfb, hl2,
      fun j hj => (hother2 j hj).trans (hother1 j hj)⟩

/-- Characterization of one instruction of build_ranges: it errors (with the
fixed message) exactly when one of the instruction's temporaries offends, and
a successful instruction is value-preserving. -/
theorem Graph.br_instr_char (g : Graph)
    (physical : List (Nat × List (Nat × Nat))) (groups : List Nat)
    (registers : Nat → List Nat) (block_from instr_id : Nat)
    (r : Except String Graph)
    (h : g.br_instr physical groups registers block_from instr_id = some r) :
    (r = Except.error brmsg ↔ br_offends_instr g instr_id) ∧
    (∀ g', r = Except.ok g' → br_compat g g') ∧
    (∀ e, r = Except.error e → e = brmsg) := by
  unfold Graph.br_instr at h
  rcases Option.bind_eq_some.mp h with ⟨instr, hinstr, h⟩
  rcases Option.bind_eq_some.mp h with ⟨g1, hg1, h⟩
  rcases Option.bind_eq_some.mp h with ⟨g2, hg2, h⟩
  rcases Option.bind_eq_some.mp h with ⟨rt, hrt, h⟩
  have hc1 : br_compat g g1 :=
    Graph.br_clobber_ranges_compat g physical groups registers instr instr_id g1 hg1
  have hc2 : br_compat g g2 :=
    br_compat_trans hc1 (Graph.br_output_compat g1 instr instr_id g2 hg2)
  unfold Graph.br_tmps at hrt
  have htchar := err_fold_char brmsg _ (fun gg tmp => br_offends_tmp gg instr tmp)
    (fun gg tmp rr hh => Graph.br_tmp_one_char gg instr instr_id tmp rr hh)
    (fun gg gg' tmp hcomp => br_offends_tmp_compat hcomp instr tmp)
    instr.temporary g2 rt hrt
  cases rt with
  | error e =>
    have hemsg : e = brmsg := htchar.2.2 e rfl
    subst hemsg
    have hr : r = Except.error brmsg := (Option.some.inj h).symm
    subst hr
    rcases htchar.1.mp rfl with ⟨tmp, htmp, hoff⟩
    refine ⟨⟨fun _ => ?_, fun _ => rfl⟩, ?_, ?_⟩
    · exact ⟨instr, hinstr, tmp, htmp,
        (br_offends_tmp_compat hc2 instr tmp).mp hoff⟩
    · intro g' hg'
      cases hg'
    · intro e2 he2
      injection he2 with h1
      exact h1.symm
  | ok g3 =>
    rcases Option.bind_eq_some.mp h with ⟨g4, hg4, h⟩
    have hr : r = Except.ok g4 := (Option.some.inj h).symm
    subst hr
    refine ⟨⟨fun he => ?_, fun hoff => ?_⟩, ?_, ?_⟩
    · cases he
    · rcases hoff with ⟨instr', hinstr', tmp, htmp, hoff⟩
      rw [hinstr] at hinstr'
      cases Option.some.inj hinstr'
      have := htchar.1.mpr
        ⟨tmp, htmp, (br_offends_tmp_compat hc2 instr tmp).mpr hoff⟩
      cases this
    · intro g' hg'
      injection hg' with h1
      subst h1
      exact br_compat_trans hc2 (br_compat_trans (htchar.2.1 g3 rfl)
        (Graph.br_inputs_compat g3 instr instr_id block_from g4 hg4))
    · intro e he
      cases he

/-- Characterization of one block of build_ranges: it errors (with the fixed
message) exactly when one of the block's instructions offends, and a
successful block is value-preserving. -/
theorem Graph.br_block_char (g : Graph)
    (physical : List (Nat × List (Nat × Nat))) (groups : List Nat)
    (registers : Nat → List Nat) (block_id : Nat)
    (r : Except String Graph)
    (h : g.br_block physical groups registers block_id = some r) :
    (r = Except.error brmsg ↔ br_offends_block g block_id) ∧
    (∀ g', r = Except.ok g' → br_compat g g') ∧
    (∀ e, r = Except.error e → e = brmsg) := by
  unfold Graph.br_block at h
  rcases Option.bind_eq_some.mp h with ⟨block, hblock, h⟩
  rcases Option.bind_eq_some.mp h with ⟨block_from, hbf, h⟩
  rcases Option.bind_eq_some.mp h with ⟨block_to, hbt, h⟩
  rcases Option.bind_eq_some.mp h with ⟨g1, hg1, h⟩
  have hc1 : br_compat g g1 := foldlM_compat _ (fun gg i gg' hh =>
      Graph.upd_interval_m_compat gg i _
        (fun iv iv' hiv => Interval.add_range_value iv _ _ iv' hiv) gg' hh)
    block.live_out g g1 hg1
  have hchar := err_fold_char brmsg _ (fun gg i => br_offends_instr gg i)
    (fun gg i rr hh =>
      Graph.br_instr_char gg physical groups registers block_from i rr hh)
    (fun gg gg' i hcomp => br_offends_instr_compat hcomp i)
    block.instructions.reverse g1 r h
  refine ⟨?_, fun g' hg' => br_compat_trans hc1 (hchar.2.1 g' hg'), hchar.2.2⟩
  rw [hchar.1]
  constructor
  · rintro ⟨i, hi, hoff⟩
    exact ⟨block, hblock, i, List.mem_reverse.mp hi,
      (br_offends_instr_compat hc1 i).mp hoff⟩
  · rintro ⟨block', hblock', i, hi, hoff⟩
    rw [hblock] at hblock'
    cases Option.some.inj hblock'
    exact ⟨i, List.mem_reverse.mpr hi, (br_offends_instr_compat hc1 i).mpr hoff⟩

/-- C8: build_ranges yields the error about temporaries of call instructions
exactly when some processed block has an instruction with a temporary whose
interval group is clobbered by that same instruction (judged on the input
graph, whose blocks, instructions and interval values survive the pass), and
no other error string is possible; and each successful temporary step adds
exactly the one-position range starting at the instruction and a register use
of the temporary's group there, touching no other interval. -/
theorem C8_build_ranges (g : Graph) (groups : List Nat)
    (registers : Nat → List Nat) (blocks : List Nat)
    (r : Except String Graph)
    (h : g.build_ranges groups registers blocks = some r) :
    ((r = Except.error brmsg ↔ ∃ block_id ∈ blocks, br_offends_block g block_id) ∧
     (∀ e, r = Except.error e → e = brmsg)) ∧
    (∀ (g1 : Graph) (instr : Instruction) (pos tmp : Nat) (g2 : Graph),
      g1.br_tmp_one instr pos tmp = some (Except.ok g2) →
      ∃ iv iv1 iv2 : Interval,
        alookup g1.intervals tmp = some iv ∧
        instr.kind.clobbers iv.value.group = false ∧
        iv.add_range pos (pos + 1) = some iv1 ∧
        iv1.add_use (UseRegister iv.value.group) pos = some iv2 ∧
        alookup g2.intervals tmp = some iv2 ∧
        ∀ j, j ≠ tmp → alookup g2.intervals j = alookup g1.intervals j) := by
  refine ⟨?_, ?_⟩
  · unfold Graph.build_ranges at h
    rcases Option.bind_eq_some.mp h with ⟨rb, hrb, h⟩
    have hchar := err_fold_char brmsg _ (fun gg b => br_offends_block gg b)
      (fun gg b rr hh =>
        Graph.br_block_char gg g.physical groups registers b rr hh)
      (fun gg gg' b hcomp => br_offends_block_compat hcomp b)
      blocks.reverse g rb hrb
    cases rb with
    | error e =>
      have hemsg : e = brmsg := hchar.2.2 e rfl
      subst hemsg
      have hr : r = Except.error brmsg := (Option.some.inj h).symm
      subst hr
      rcases hchar.1.mp rfl with ⟨b, hb, hoff⟩
      refine ⟨⟨fun _ => ⟨b, List.mem_reverse.mp hb, hoff⟩, fun _ => rfl⟩, ?_⟩
      intro e2 he2
      injection he2 with h1
      exact h1.symm
    | ok gm =>
      rcases Option.bind_eq_some.mp h with ⟨gs, hgs, h⟩
      have hr : r = Except.ok gs := (Option.some.inj h).symm
      subst hr
      refine ⟨⟨fun he => ?_, fun hoff => ?_⟩, ?_⟩
      · cases he
      · rcases hoff with ⟨b, hb, hoff⟩
        have := hchar.1.mpr ⟨b, List.mem_reverse.mpr hb, hoff⟩
        cases this
      · intro e he
        cases he
  · intro g1 instr pos tmp g2 hok
    exact Graph.br_tmp_one_ok g1 instr pos tmp g2 hok

/-- Witness: on c8_graph build_ranges returns the temporary error, and the
offending block is exhibited by the theorem itself. -/
theorem C8_witness :
    Graph.build_ranges c8_graph [0] (fun _ => []) [0] =
      some (Except.error brmsg) ∧
    ∃ block_id ∈ ([0] : List Nat), br_offends_block c8_graph block_id :=
  ⟨rfl, (C8_build_ranges c8_graph [0] (fun _ => []) [0]
    (Except.error brmsg) rfl).1.1.mp rfl⟩

/-- C1 counterexample: after a successful allocator walk interval 0 covers
position 2 and holds the concrete value r0, yet get_value(0, 2) returns
None because the interval has no use exactly at 2 (child_with_use_at
demands a use at the position, not mere coverage). -/
theorem C1_counterexample :
    (∃ sc t, c1_graph.walk_intervals 0 1 10 = some (Except.ok (sc, c1_res, t))) ∧
    (∃ iv, alookup c1_res.intervals 0 = some iv ∧ iv.covers 2 = true ∧
      iv.value = RegisterVal 0 0 ∧ iv.children = []) ∧
    c1_res.get_value 0 2 = some none ∧
    c1_res.get_value 0 4 = some (some (RegisterVal 0 0)) :=
  ⟨⟨0, [(0, [])], rfl⟩, ⟨_, rfl, rfl, rfl, rfl⟩, rfl, rfl⟩

/-- Amended C1: get_value(parent, pos) returns Some(v) only when one of
parent and its children has pos within [start(), end()] AND a use exactly at
pos, v being the value of the interval registered under the returned id; it
returns None exactly when every candidate lacks such a use (covering pos is
not enough), and nothing guarantees v is concrete. -/
theorem C1_get_value_use_at (g : Graph) (parent pos : Nat)
    (r : Option Value) (h : g.get_value parent pos = some r) :
    ∃ p, alookup g.intervals parent = some p ∧
      ((∃ c x ivh ivc, x ∈ parent :: p.children ∧
          alookup g.intervals x = some ivh ∧ ivh.id = c ∧
          (∃ s, ivh.start = some s ∧ s ≤ pos) ∧
          (∃ e, ivh.end_ = some e ∧ pos ≤ e) ∧
          ivh.uses.any (fun u => u.pos == pos) = true ∧
          alookup g.intervals c = some ivc ∧ r = some ivc.value) ∨
       (r = none ∧ ∀ x ∈ parent :: p.children, ∃ iv s e,
          alookup g.intervals x = some iv ∧
          iv.start = some s ∧ iv.end_ = some e ∧
          (decide (s ≤ pos) && decide (pos ≤ e) &&
            iv.uses.any (fun u => u.pos == pos)) = false)) := by
  unfold Graph.get_value at h
  rcases Option.bind_eq_some.mp h with ⟨child, hchild, h⟩
  unfold Graph.child_with_use_at at hchild
  rcases Option.bind_eq_some.mp hchild with ⟨p, hp, hloop⟩
  refine ⟨p, hp, ?_⟩
  cases child with
  | some c =>
    rcases Option.bind_eq_some.mp h with ⟨ivc, hivc, h⟩
    have hr : r = some ivc.value := (Option.some.inj h).symm
    rcases Graph.child_loop_some_elim g _ _ c hloop with ⟨x, hx, ivh, hivh, hid, hpred⟩
    rcases Option.bind_eq_some.mp hpred with ⟨s, hs, hpred⟩
    rcases Option.bind_eq_some.mp hpred with ⟨e, he, hpred⟩
    have hb := Option.some.inj hpred
    simp only [Bool.and_eq_true, decide_eq_true_eq] at hb
    exact Or.inl ⟨c, x, ivh, ivc, hx, hivh, hid,
      ⟨s, hs, hb.1.1⟩, ⟨e, he, hb.1.2⟩, hb.2, hivc, hr⟩
  | none =>
    have hr : r = none := (Option.some.inj h).symm
    refine Or.inr ⟨hr, ?_⟩
    intro x hx
    rcases Graph.child_loop_none_elim g _ _ hloop x hx with ⟨iv, hiv, hpred⟩
    rcases Option.bind_eq_some.mp hpred with ⟨s, hs, hpred⟩
    rcases Option.bind_eq_some.mp hpred with ⟨e, he, hpred⟩
    exact ⟨iv, s, e, hiv, hs, he, Option.some.inj hpred⟩

/-- Witness for the amended C1 at a use position of the concrete scenario. -/
theorem C1_witness :
    ∃ p, alookup c1_graph.intervals 0 = some p ∧
      ((∃ c x ivh ivc, x ∈ 0 :: p.children ∧
          alookup c1_graph.intervals x = some ivh ∧ ivh.id = c ∧
          (∃ s, ivh.start = some s ∧ s ≤ 4) ∧
          (∃ e, ivh.end_ = some e ∧ 4 ≤ e) ∧
          ivh.uses.any (fun u => u.pos == 4) = true ∧
          alookup c1_graph.intervals c = some ivc ∧
          (some (VirtualVal 0) : Option Value) = some ivc.value) ∨
       ((some (VirtualVal 0) : Option Value) = none ∧
        ∀ x ∈ 0 :: p.children, ∃ iv s e,
          alookup c1_graph.intervals x = some iv ∧
          iv.start = some s ∧ iv.end_ = some e ∧
          (decide (s ≤ 4) && decide (4 ≤ e) &&
            iv.uses.any (fun u => u.pos == 4)) = false)) :=
  C1_get_value_use_at c1_graph 0 4 (some (VirtualVal 0)) rfl

theorem Graph.le_start_ok_trans (g : Graph) (a b c : Nat)
    (hab : g.le_start_ok a b) (hbc : g.le_start_ok b c) : g.le_start_ok a c := by
  unfold Graph.le_start_ok Graph.le_start at hab hbc ⊢
  rcases Option.bind_eq_some.mp hab with ⟨sa, hsa, hab⟩
  rcases Option.bind_eq_some.mp hab with ⟨sb, hsb, hab⟩
  rcases Option.bind_eq_some.mp hbc with ⟨sb', hsb', hbc⟩
  rcases Option.bind_eq_some.mp hbc with ⟨sc, hsc, hbc⟩
  rw [hsb] at hsb'
  cases Option.some.inj hsb'
  rw [hsa, hsc]
  have h1 : sa ≤ sb := by simpa using (Option.some.inj hab).symm
  have h2 : sb ≤ sc := by simpa using (Option.some.inj hbc).symm
  simp [Option.bind_eq_some]
  exact h1.trans h2

theorem Graph.le_start_false (g : Graph) (a b : Nat)
    (h : g.le_start a b = some false) : g.le_start_ok b a := by
  unfold Graph.le_start at h
  unfold Graph.le_start_ok Graph.le_start
  rcases Option.bind_eq_some.mp h with ⟨sa, hsa, h⟩
  rcases Option.bind_eq_some.mp h with ⟨sb, hsb, h⟩
  have hf : ¬ sa ≤ sb := by simpa using (Option.some.inj h).symm
  rw [hsb, hsa]
  simp [Option.bind_eq_some]
  exact Nat.le_of_lt (Nat.lt_of_not_le hf)

/-- Sorted insertion with the start comparator keeps the list sorted, and
inserts nothing but the new element. -/
theorem insert_sorted_sorted (g : Graph) (x : Nat) :
    ∀ (l l' : List Nat), l.Pairwise g.le_start_ok →
      insert_sorted g.le_start x l = some l' →
      l'.Pairwise g.le_start_ok ∧ ∀ z ∈ l', z = x ∨ z ∈ l := by
  intro l
  induction l with
  | nil =>
    intro l' _ h
    cases h
    exact ⟨List.pairwise_singleton _ x, by intro z hz; simp at hz; exact Or.inl hz⟩
  | cons y t ih =>
    intro l' hl h
    unfold insert_sorted at h
    rcases Option.bind_eq_some.mp h with ⟨b, hb, h⟩
    cases b
    · rcases Option.bind_eq_some.mp h with ⟨t', ht', h⟩
      have hres : l' = y :: t' := (Option.some.inj h).symm
      subst hres
      rcases ih t' (List.Pairwise.of_cons hl) ht' with ⟨hp, hmem⟩
      refine ⟨List.Pairwise.cons ?_ hp, ?_⟩
      · intro z hz
        rcases hmem z hz with heq | hz
        · rw [heq]
          exact Graph.le_start_false g x y hb
        · exact (List.pairwise_cons.mp hl).1 z hz
      · intro z hz
        rcases List.mem_cons.mp hz with heq | hz
        · rw [heq]
          exact Or.inr (List.mem_cons_self _ _)
        · rcases hmem z hz with heq | hz
          · exact Or.inl heq
          · exact Or.inr (List.mem_cons_of_mem _ hz)
    · have hres : l' = x :: y :: t := (Option.some.inj h).symm
      subst hres
      have hxy : g.le_start_ok x y := hb
      refine ⟨List.Pairwise.cons ?_ hl, ?_⟩
      · intro z hz
        rcases List.mem_cons.mp hz with rfl | hz
        · exact hxy
        · exact Graph.le_start_ok_trans g x y z hxy ((List.pairwise_cons.mp hl).1 z hz)
      · intro z hz
        rcases List.mem_cons.mp hz with rfl | hz
        · exact Or.inl rfl
        · exact Or.inr hz

/-- The insertion sort of sort_unhandled yields a list sorted by start. -/
theorem sortM_sorted (g : Graph) (l l' : List Nat)
    (h : sortM g.le_start l = some l') : l'.Pairwise g.le_start_ok := by
  unfold sortM at h
  exact foldlM_option_inv (fun acc => acc.Pairwise g.le_start_ok) _
    (fun acc a r hp hr => (insert_sorted_sorted g a acc r hp hr).1)
    l [] l' List.Pairwise.nil h

/-- sort_unhandled establishes the walker invariant outright. -/
theorem Graph.sort_unhandled_inv (g : Graph) (state state' : AllocatorState)
    (h : g.sort_unhandled state = some state') :
    wi_inv g state' ∧ state'.active = state.active ∧
      state'.inactive = state.inactive := by
  unfold Graph.sort_unhandled at h
  rcases Option.bind_eq_some.mp h with ⟨u, hu, h⟩
  have hs : state' = { state with unhandled := u } := (Option.some.inj h).symm
  subst hs
  exact ⟨sortM_sorted g _ u hu, rfl, rfl⟩

theorem same_starts_le_start {g g' : Graph} (h : same_starts g g')
    (a b : Nat) : g'.le_start a b = g.le_start a b := by
  unfold Graph.le_start
  rw [h a, h b]

theorem wi_inv_of_same_starts {g g' : Graph} (h : same_starts g g')
    {state : AllocatorState} (hi : wi_inv g state) : wi_inv g' state := by
  refine List.Pairwise.imp ?_ hi
  intro a b hab
  unfold Graph.le_start_ok
  rw [same_starts_le_start h a b]
  exact hab

/-- Same invariant, different non-unhandled state fields. -/
theorem wi_inv_congr {g : Graph} {s s' : AllocatorState}
    (h : s'.unhandled = s.unhandled) (hi : wi_inv g s) : wi_inv g s' := by
  unfold wi_inv
  rw [h]
  exact hi

/-- A mutation that does not touch ranges (e.g. a value assignment) keeps
every start position. -/
theorem Graph.upd_interval_same_starts (g : Graph) (id : Nat)
    (f : Interval → Interval) (hf : ∀ iv, (f iv).ranges = iv.ranges)
    (g' : Graph) (h : g.upd_interval id f = some g') : same_starts g g' := by
  unfold Graph.upd_interval at h
  rcases Option.bind_eq_some.mp h with ⟨iv0, hiv0, h⟩
  have hg : g' = { g with intervals := aupdate g.intervals id f } :=
    (Option.some.inj h).symm
  subst hg
  intro i
  unfold Graph.start_of
  show (alookup (aupdate g.intervals id f) i).bind Interval.start
     = (alookup g.intervals i).bind Interval.start
  by_cases hi : i = id
  · subst hi
    rw [alookup_aupdate]
    cases hx : alookup g.intervals i with
    | none => rfl
    | some iv =>
      show (some (f iv)).bind Interval.start = (some iv).bind Interval.start
      have : (f iv).start = iv.start := by
        unfold Interval.start
        rw [hf iv]
      simpa using this
  · rw [alookup_aupdate_ne _ _ _ _ hi]

/-- get_spill leaves the unhandled list alone. -/
theorem get_spill_unhandled (s : AllocatorState) :
    s.get_spill.2.unhandled = s.unhandled := by
  unfold AllocatorState.get_spill
  cases s.spills <;> rfl

/-- The allocator split always leaves a sorted unhandled list (it appends
the new child and re-sorts on the post-split graph). -/
theorem Graph.split_inv (g : Graph) (current : Nat) (conf : SplitConf)
    (state : AllocatorState) (r : Nat × Graph × AllocatorState)
    (h : g.split current conf state = some r) : wi_inv r.2.1 r.2.2 := by
  unfold Graph.split at h
  cases conf with
  | Between s e =>
    rcases Option.bind_eq_some.mp h with ⟨split_pos, _, h⟩
    dsimp only at h
    rcases Option.bind_eq_some.mp h with ⟨rg, hrg, h⟩
    rcases Option.bind_eq_some.mp h with ⟨state', hstate', h⟩
    have hr : r = (rg.1, rg.2, state') := (Option.some.inj h).symm
    subst hr
    exact (Graph.sort_unhandled_inv rg.2 _ state' hstate').1
  | At p =>
    rcases Option.bind_eq_some.mp h with ⟨split_pos, _, h⟩
    dsimp only at h
    rcases Option.bind_eq_some.mp h with ⟨rg, hrg, h⟩
    rcases Option.bind_eq_some.mp h with ⟨state', hstate', h⟩
    have hr : r = (rg.1, rg.2, state') := (Option.some.inj h).symm
    subst hr
    exact (Graph.sort_unhandled_inv rg.2 _ state' hstate').1

/-- Invariant for the tail of sas_one, from the first split on. -/
theorem Graph.sas_tail_inv (g : Graph) (state : AllocatorState)
    (last_use spill_pos id : Nat) (r : Graph × AllocatorState)
    (h : (do
      let r1 ← g.split id (SplitConf.Between last_use spill_pos) state
      let spill_child := r1.1
      let vs := r1.2.2.get_spill
      let g2 ← r1.2.1.upd_interval spill_child
        (fun i => { i with value := vs.1 })
      let state2 := vs.2
      let scIv ← alookup g2.intervals spill_child
      match scIv.next_use spill_pos with
      | some u => do
        let r2 ← g2.split id (SplitConf.Between spill_pos u.pos) state2
        pure (r2.2.1, r2.2.2)
      | none => pure (g2, state2) : Option (Graph × AllocatorState)) = some r) :
    wi_inv r.1 r.2 := by
  rcases Option.bind_eq_some.mp h with ⟨r1, hr1, h⟩
  dsimp only at h
  rcases Option.bind_eq_some.mp h with ⟨g2, hg2, h⟩
  rcases Option.bind_eq_some.mp h with ⟨scIv, hscIv, h⟩
  have hinv1 : wi_inv r1.2.1 r1.2.2 := Graph.split_inv g id _ state r1 hr1
  have hss : same_starts r1.2.1 g2 :=
    Graph.upd_interval_same_starts r1.2.1 r1.1
      (fun i => { i with value := r1.2.2.get_spill.1 }) (fun _ => rfl) g2 hg2
  have hinv2 : wi_inv g2 r1.2.2.get_spill.2 :=
    wi_inv_of_same_starts hss
      (wi_inv_congr (get_spill_unhandled r1.2.2) hinv1)
  cases hnu : scIv.next_use spill_pos with
  | some u =>
    rw [hnu] at h
    rcases Option.bind_eq_some.mp h with ⟨r2, hr2, h⟩
    have hr : r = (r2.2.1, r2.2.2) := (Option.some.inj h).symm
    subst hr
    exact Graph.split_inv g2 id _ _ r2 hr2
  | none =>
    rw [hnu] at h
    have hr : r = (g2, r1.2.2.get_spill.2) := (Option.some.inj h).symm
    subst hr
    exact hinv2

/-- One split-and-spill body keeps the invariant (it in fact re-establishes
it from the split). -/
theorem Graph.sas_one_inv (g : Graph) (state : AllocatorState)
    (start id : Nat) (r : Graph × AllocatorState)
    (h : g.sas_one state start id = some r) : wi_inv r.1 r.2 := by
  unfold Graph.sas_one at h
  rcases Option.bind_eq_some.mp h with ⟨spill_pos, _, h⟩
  rcases Option.bind_eq_some.mp h with ⟨iv, hiv, h⟩
  dsimp only at h
  cases hlu : iv.last_use spill_pos with
  | some u =>
    rw [hlu] at h
    exact Graph.sas_tail_inv g state u.pos spill_pos id r h
  | none =>
    rw [hlu] at h
    rcases Option.bind_eq_some.mp h with ⟨last_use, _, h⟩
    exact Graph.sas_tail_inv g state last_use spill_pos id r h

/-- split_and_spill keeps the invariant. -/
theorem Graph.split_and_spill_inv (g : Graph) (current : Nat)
    (state : AllocatorState) (r : Graph × AllocatorState)
    (hi : wi_inv g state)
    (h : g.split_and_spill current state = some r) : wi_inv r.1 r.2 := by
  unfold Graph.split_and_spill at h
  rcases Option.bind_eq_some.mp h with ⟨iv, hiv, h⟩
  dsimp only at h
  cases hv : iv.value with
  | VirtualVal grp => rw [hv] at h; cases h
  | StackVal grp slot => rw [hv] at h; cases h
  | RegisterVal grp rg =>
  rw [hv] at h
  rcases Option.bind_eq_some.mp h with ⟨reg, hreg, h⟩
  rcases Option.bind_eq_some.mp h with ⟨start, hstart, h⟩
  rcases Option.bind_eq_some.mp h with ⟨act, hact, h⟩
  rcases Option.bind_eq_some.mp h with ⟨ints, hints, h⟩
  exact foldlM_option_inv (fun (gs : Graph × AllocatorState) => wi_inv gs.1 gs.2)
    _ (fun gs id rr hp hs => Graph.sas_one_inv gs.1 gs.2 start id rr hs)
    _ (g, state) r hi h

/-- afr_give_reg keeps the invariant (value assignment only). -/
theorem Graph.afr_give_reg_inv (g : Graph) (current : Nat)
    (state : AllocatorState) (reg : Nat) (r : Bool × Graph × AllocatorState)
    (hi : wi_inv g state)
    (h : g.afr_give_reg current state reg = some r) : wi_inv r.2.1 r.2.2 := by
  unfold Graph.afr_give_reg at h
  rcases Option.bind_eq_some.mp h with ⟨g1, hg1, h⟩
  have hr : r = (true, g1, state) := (Option.some.inj h).symm
  subst hr
  exact wi_inv_of_same_starts
    (Graph.upd_interval_same_starts g current
      (fun i => { i with value := RegisterVal state.group reg })
      (fun _ => rfl) g1 hg1) hi

/-- afr_split_case keeps the invariant. -/
theorem Graph.afr_split_case_inv (g : Graph) (current : Nat)
    (state : AllocatorState) (reg max_pos start : Nat)
    (r : Bool × Graph × AllocatorState) (hi : wi_inv g state)
    (h : g.afr_split_case current state reg max_pos start = some r) :
    wi_inv r.2.1 r.2.2 := by
  unfold Graph.afr_split_case at h
  rcases Option.bind_eq_some.mp h with ⟨split_pos0, _, h⟩
  rcases Option.bind_eq_some.mp h with ⟨adj, hadj, h⟩
  cases adj with
  | none =>
    dsimp only at h
    have hr : r = (false, g, state) := (Option.some.inj h).symm
    subst hr
    exact hi
  | some split_pos =>
    dsimp only at h
    rcases Option.bind_eq_some.mp h with ⟨cg, hcg, h⟩
    rcases Option.bind_eq_some.mp h with ⟨cIv, hcIv, h⟩
    have hsplit : wi_inv cg.2.1 cg.2.2 := Graph.split_inv g current _ state cg hcg
    cases hnu : cIv.next_use 0 with
    | none =>
      rw [hnu] at h
      rcases Option.bind_eq_some.mp h with ⟨g2, hg2, h⟩
      have hss : same_starts cg.2.1 g2 :=
        Graph.upd_interval_same_starts cg.2.1 cg.1
          (fun i => { i with value := cg.2.2.get_spill.1 })
          (fun _ => rfl) g2 hg2
      exact Graph.afr_give_reg_inv g2 current _ reg r
        (wi_inv_of_same_starts hss
          (wi_inv_congr (get_spill_unhandled cg.2.2) hsplit)) h
    | some u =>
      rw [hnu] at h
      exact Graph.afr_give_reg_inv cg.2.1 current cg.2.2 reg r hsplit h

/-- afr_body keeps the invariant. -/
theorem Graph.afr_body_inv (g : Graph) (current : Nat)
    (state : AllocatorState) (reg max_pos : Nat)
    (r : Bool × Graph × AllocatorState) (hi : wi_inv g state)
    (h : g.afr_body current state reg max_pos = some r) :
    wi_inv r.2.1 r.2.2 := by
  unfold Graph.afr_body at h
  rcases Option.bind_eq_some.mp h with ⟨iv, hiv, h⟩
  rcases Option.bind_eq_some.mp h with ⟨start, hstart, h⟩
  rcases Option.bind_eq_some.mp h with ⟨end_, hend, h⟩
  by_cases h1 : max_pos ≥ end_
  · rw [if_pos h1] at h
    exact Graph.afr_give_reg_inv g current state reg r hi h
  · rw [if_neg h1] at h
    by_cases h2 : inext start ≥ max_pos
    · rw [if_pos h2] at h
      have hr : r = (false, g, state) := (Option.some.inj h).symm
      subst hr
      exact hi
    · rw [if_neg h2] at h
      exact Graph.afr_split_case_inv g current state reg max_pos start r hi h

/-- allocate_free_reg keeps the invariant. -/
theorem Graph.allocate_free_reg_inv (g : Graph) (current : Nat)
    (state : AllocatorState) (r : Bool × Graph × AllocatorState)
    (hi : wi_inv g state)
    (h : g.allocate_free_reg current state = some r) : wi_inv r.2.1 r.2.2 := by
  unfold Graph.allocate_free_reg at h
  rcases Option.bind_eq_some.mp h with ⟨hint, hhint, h⟩
  rcases Option.bind_eq_some.mp h with ⟨free_pos, hfp, h⟩
  rcases Option.bind_eq_some.mp h with ⟨rm, hrm, h⟩
  by_cases h1 : rm.2 = 0
  · rw [if_pos h1] at h
    have hr : r = (false, g, state) := (Option.some.inj h).symm
    subst hr
    exact hi
  · rw [if_neg h1] at h
    exact Graph.afr_body_inv g current state rm.1 rm.2 r hi h

/-- abr_spill_current re-establishes the invariant via its split. -/
theorem Graph.abr_spill_current_inv (g : Graph) (current : Nat)
    (state : AllocatorState) (start upos : Nat)
    (r : Except String (Graph × AllocatorState))
    (h : g.abr_spill_current current state start upos = some r) :
    ∀ g' s', r = Except.ok (g', s') → wi_inv g' s' := by
  unfold Graph.abr_spill_current at h
  rcases Option.bind_eq_some.mp h with ⟨g1, hg1, h⟩
  rcases Option.bind_eq_some.mp h with ⟨r1, hr1, h⟩
  have hr : r = Except.ok (r1.2.1, r1.2.2) := (Option.some.inj h).symm
  subst hr
  intro g' s' he
  injection he with he
  have h1 : r1.2.1 = g' := congrArg Prod.fst he
  have h2 : r1.2.2 = s' := congrArg Prod.snd he
  rw [← h1, ← h2]
  exact Graph.split_inv g1 current _ _ r1 hr1

/-- abr_maybe_block_split keeps the invariant. -/
theorem Graph.abr_maybe_block_split_inv (g : Graph) (current : Nat)
    (state : AllocatorState) (start bp end_ : Nat)
    (r : Graph × AllocatorState) (hi : wi_inv g state)
    (h : g.abr_maybe_block_split current state start bp end_ = some r) :
    wi_inv r.1 r.2 := by
  unfold Graph.abr_maybe_block_split at h
  by_cases h1 : bp ≤ end_
  · rw [if_pos h1] at h
    rcases Option.bind_eq_some.mp h with ⟨r1, hr1, h⟩
    have hr : r = (r1.2.1, r1.2.2) := (Option.some.inj h).symm
    subst hr
    exact Graph.split_inv g current _ state r1 hr1
  · rw [if_neg h1] at h
    have hr : r = (g, state) := (Option.some.inj h).symm
    subst hr
    exact hi

/-- abr_assign keeps the invariant. -/
theorem Graph.abr_assign_inv (g : Graph) (current : Nat)
    (state : AllocatorState) (start reg : Nat) (block_pos : List Nat)
    (r : Except String (Graph × AllocatorState)) (hi : wi_inv g state)
    (h : g.abr_assign current state start reg block_pos = some r) :
    ∀ g' s', r = Except.ok (g', s') → wi_inv g' s' := by
  unfold Graph.abr_assign at h
  rcases Option.bind_eq_some.mp h with ⟨g1, hg1, h⟩
  rcases Option.bind_eq_some.mp h with ⟨bp, hbp, h⟩
  rcases Option.bind_eq_some.mp h with ⟨iv, hiv, h⟩
  rcases Option.bind_eq_some.mp h with ⟨end_, hend, h⟩
  rcases Option.bind_eq_some.mp h with ⟨gs, hgs, h⟩
  rcases Option.bind_eq_some.mp h with ⟨r2, hr2, h⟩
  have hr : r = Except.ok (r2.1, r2.2) := (Option.some.inj h).symm
  subst hr
  have hi1 : wi_inv g1 state := wi_inv_of_same_starts
    (Graph.upd_interval_same_starts g current
      (fun i => { i with value := RegisterVal state.group reg })
      (fun _ => rfl) g1 hg1) hi
  have hi2 : wi_inv gs.1 gs.2 :=
    Graph.abr_maybe_block_split_inv g1 current state start bp end_ gs hi1 hgs
  have hi3 : wi_inv r2.1 r2.2 :=
    Graph.split_and_spill_inv gs.1 current gs.2 r2 hi2 hr2
  intro g' s' he
  injection he with he
  have h1 : r2.1 = g' := congrArg Prod.fst he
  have h2 : r2.2 = s' := congrArg Prod.snd he
  rw [← h1, ← h2]
  exact hi3

/-- abr_decide keeps the invariant on every Ok outcome. -/
theorem Graph.abr_decide_inv (g : Graph) (current : Nat)
    (state : AllocatorState) (start reg max_pos : Nat)
    (block_pos : List Nat) (first_use : Option Use)
    (r : Except String (Graph × AllocatorState)) (hi : wi_inv g state)
    (h : g.abr_decide current state start reg max_pos block_pos first_use
      = some r) :
    ∀ g' s', r = Except.ok (g', s') → wi_inv g' s' := by
  unfold Graph.abr_decide at h
  cases first_use with
  | some u =>
    dsimp only at h
    by_cases h1 : max_pos < u.pos
    · rw [if_pos h1] at h
      by_cases h2 : u.pos = start
      · rw [if_pos h2] at h
        have hr : r = Except.error "Incorrect input, allocation impossible" :=
          (Option.some.inj h).symm
        subst hr
        intro g' s' he
        cases he
      · rw [if_neg h2] at h
        exact Graph.abr_spill_current_inv g current state start u.pos r h
    · rw [if_neg h1] at h
      exact Graph.abr_assign_inv g current state start reg block_pos r hi h
  | none =>
    dsimp only at h
    rcases Option.bind_eq_some.mp h with ⟨g1, hg1, h⟩
    have hr : r = Except.ok (g1, state.get_spill.2) := (Option.some.inj h).symm
    subst hr
    intro g' s' he
    injection he with he
    have h1 : g1 = g' := congrArg Prod.fst he
    have h2 : state.get_spill.2 = s' := congrArg Prod.snd he
    rw [← h1, ← h2]
    exact wi_inv_of_same_starts
      (Graph.upd_interval_same_starts g current
        (fun i => { i with value := state.get_spill.1 })
        (fun _ => rfl) g1 hg1)
      (wi_inv_congr (get_spill_unhandled state) hi)

/-- allocate_blocked_reg keeps the invariant on every Ok outcome. -/
theorem Graph.allocate_blocked_reg_inv (g : Graph) (current : Nat)
    (state : AllocatorState)
    (r : Except String (Graph × AllocatorState)) (hi : wi_inv g state)
    (h : g.allocate_blocked_reg current state = some r) :
    ∀ g' s', r = Except.ok (g', s') → wi_inv g' s' := by
  unfold Graph.allocate_blocked_reg at h
  rcases Option.bind_eq_some.mp h with ⟨sel, hsel, h⟩
  rcases Option.bind_eq_some.mp h with ⟨iv2, hiv2, h⟩
  exact Graph.abr_decide_inv g current state sel.1 sel.2.1.1 sel.2.1.2
    sel.2.2 (iv2.next_use 0) r hi h

/-- wi_alloc keeps the invariant on every Ok outcome. -/
theorem Graph.wi_alloc_inv (g : Graph) (current : Nat)
    (state : AllocatorState)
    (r : Except String (Graph × AllocatorState)) (hi : wi_inv g state)
    (h : g.wi_alloc current state = some r) :
    ∀ g' s', r = Except.ok (g', s') → wi_inv g' s' := by
  unfold Graph.wi_alloc at h
  rcases Option.bind_eq_some.mp h with ⟨iv, hiv, h⟩
  by_cases h1 : iv.value.is_virtual = true
  · rw [if_pos h1] at h
    rcases Option.bind_eq_some.mp h with ⟨r1, hr1, h⟩
    have hfree : wi_inv r1.2.1 r1.2.2 :=
      Graph.allocate_free_reg_inv g current state r1 hi hr1
    by_cases h2 : r1.1 = true
    · rw [if_pos h2] at h
      have hr : r = Except.ok (r1.2.1, r1.2.2) := (Option.some.inj h).symm
      subst hr
      intro g' s' he
      injection he with he
      have ha : r1.2.1 = g' := congrArg Prod.fst he
      have hb : r1.2.2 = s' := congrArg Prod.snd he
      rw [← ha, ← hb]
      exact hfree
    · rw [if_neg h2] at h
      exact Graph.allocate_blocked_reg_inv r1.2.1 current r1.2.2 r hfree h
  · rw [if_neg h1] at h
    have hr : r = Except.ok (g, state) := (Option.some.inj h).symm
    subst hr
    intro g' s' he
    injection he with he
    have ha : g = g' := congrArg Prod.fst he
    have hb : state = s' := congrArg Prod.snd he
    rw [← ha, ← hb]
    exact hi

/-- to_handled folds do not touch the unhandled list. -/
theorem to_handled_foldl_unhandled (l : List Value) :
    ∀ s : AllocatorState, (l.foldl AllocatorState.to_handled s).unhandled
      = s.unhandled := by
  induction l with
  | nil => intro s; rfl
  | cons v t ih =>
    intro s
    rw [List.foldl_cons, ih]
    unfold AllocatorState.to_handled
    cases v <;> rfl

/-- wi_migrate does not touch the unhandled list. -/
theorem Graph.wi_migrate_unhandled (g : Graph) (state : AllocatorState)
    (position : Nat) (s' : AllocatorState)
    (h : g.wi_migrate state position = some s') :
    s'.unhandled = state.unhandled := by
  unfold Graph.wi_migrate at h
  rcases Option.bind_eq_some.mp h with ⟨r1, hr1, h⟩
  rcases Option.bind_eq_some.mp h with ⟨r2, hr2, h⟩
  have hs : s' = r2.2.2.foldl AllocatorState.to_handled
      { state with active := r2.2.1, inactive := r2.1 } :=
    (Option.some.inj h).symm
  subst hs
  rw [to_handled_foldl_unhandled]

/-- wi_post does not touch the unhandled list. -/
theorem Graph.wi_post_unhandled (g : Graph) (current : Nat)
    (state : AllocatorState) (s' : AllocatorState)
    (h : g.wi_post current state = some s') :
    s'.unhandled = state.unhandled := by
  unfold Graph.wi_post at h
  rcases Option.bind_eq_some.mp h with ⟨iv, hiv, h⟩
  cases hv : iv.value with
  | RegisterVal a b =>
    rw [hv] at h
    have hs : s' = { state with active := state.active ++ [current] } :=
      (Option.some.inj h).symm
    subst hs
    rfl
  | VirtualVal a =>
    rw [hv] at h
    have hs : s' = state := (Option.some.inj h).symm
    subst hs
    rfl
  | StackVal a b =>
    rw [hv] at h
    have hs : s' = state := (Option.some.inj h).symm
    subst hs
    rfl

/-- Members of a successful Option mapM come from members of the input. -/
theorem mapM_option_mem {α β : Type} (f : α → Option β) :
    ∀ (l : List α) (l' : List β), l.mapM f = some l' →
      ∀ y ∈ l', ∃ x ∈ l, f x = some y := by
  intro l
  induction l with
  | nil =>
    intro l' h y hy
    cases h
    simp at hy
  | cons a t ih =>
    intro l' h y hy
    rw [List.mapM_cons] at h
    rcases Option.bind_eq_some.mp h with ⟨b, hb, h⟩
    rcases Option.bind_eq_some.mp h with ⟨bs, hbs, h⟩
    have hl : l' = b :: bs := (Option.some.inj h).symm
    subst hl
    rcases List.mem_cons.mp hy with heq | hy
    · exact ⟨a, List.mem_cons_self a t, heq ▸ hb⟩
    · rcases ih bs hbs y hy with ⟨x, hx, hfx⟩
      exact ⟨x, List.mem_cons_of_mem a hx, hfx⟩

/-- Reading the comparator success on concrete start positions. -/
theorem le_start_ok_le {g : Graph} {a b sa sb : Nat}
    (h : g.le_start_ok a b) (ha : g.start_of a = some sa)
    (hb : g.start_of b = some sb) : sa ≤ sb := by
  unfold Graph.le_start_ok Graph.le_start at h
  rcases Option.bind_eq_some.mp h with ⟨sa', hsa', h⟩
  rcases Option.bind_eq_some.mp h with ⟨sb', hsb', h⟩
  rw [ha] at hsa'
  cases Option.some.inj hsa'
  rw [hb] at hsb'
  cases Option.some.inj hsb'
  simpa using (Option.some.inj h).symm

/-- The walk loop only ever appends pops that are minimal among the
remaining unhandled list: every trace entry produced under the sortedness
invariant is good. -/
theorem Graph.wi_loop_trace_good (fuel : Nat) :
    ∀ (g : Graph) (state : AllocatorState) (trace : List (Nat × List Nat))
      (r : Except String (Graph × AllocatorState × List (Nat × List Nat))),
      wi_inv g state →
      (∀ p ∈ trace, ∀ s ∈ p.2, p.1 ≤ s) →
      g.wi_loop fuel state trace = some r →
      ∀ gf sf tf, r = Except.ok (gf, sf, tf) →
        ∀ p ∈ tf, ∀ s ∈ p.2, p.1 ≤ s := by
  induction fuel with
  | zero =>
    intro g state trace r _ _ h
    exact Option.noConfusion h
  | succ fuel ih =>
    intro g state trace r hi htr h
    rw [Graph.wi_loop] at h
    cases hu : state.unhandled with
    | nil =>
      rw [hu] at h
      have hr : r = Except.ok (g, state, trace) := (Option.some.inj h).symm
      subst hr
      intro gf sf tf he
      injection he with he
      have h3 : trace = tf := congrArg (fun p => p.2.2) he
      intro p hp
      exact htr p (h3 ▸ hp)
    | cons current rest =>
      rw [hu] at h
      unfold wi_inv at hi
      rw [hu] at hi
      rcases Option.bind_eq_some.mp h with ⟨position, hpos, h⟩
      rcases Option.bind_eq_some.mp h with ⟨restStarts, hrs, h⟩
      dsimp only at h
      rcases Option.bind_eq_some.mp h with ⟨state1, hmig, h⟩
      rcases Option.bind_eq_some.mp h with ⟨r1, halloc, h⟩
      have hentry : ∀ s ∈ restStarts, position ≤ s := by
        intro s hs
        rcases mapM_option_mem g.start_of rest restStarts hrs s hs with ⟨b, hb, hfb⟩
        exact le_start_ok_le ((List.pairwise_cons.mp hi).1 b hb) hpos hfb
      have htr' : ∀ p ∈ trace ++ [(position, restStarts)],
          ∀ s ∈ p.2, p.1 ≤ s := by
        intro p hp
        rcases List.mem_append.mp hp with hp | hp
        · exact htr p hp
        · rcases List.mem_singleton.mp hp with rfl
          exact hentry
      have hi1 : wi_inv g state1 := by
        unfold wi_inv
        rw [Graph.wi_migrate_unhandled g _ position state1 hmig]
        exact (List.pairwise_cons.mp hi).2
      cases r1 with
      | error e =>
        have hr : r = Except.error e := (Option.some.inj h).symm
        subst hr
        intro gf sf tf he
        cases he
      | ok gs =>
        obtain ⟨g2, s2⟩ := gs
        dsimp only at h
        rcases Option.bind_eq_some.mp h with ⟨state2, hpost, h⟩
        have hi2 : wi_inv g2 s2 :=
          Graph.wi_alloc_inv g current state1 _ hi1 halloc g2 s2 rfl
        have hi3 : wi_inv g2 state2 :=
          wi_inv_congr (Graph.wi_post_unhandled g2 current s2 state2 hpost) hi2
        exact ih g2 state2 (trace ++ [(position, restStarts)]) r hi3 htr' h

/-- Amended C7: in every successful walk_intervals run, each popped interval
is minimal: its start position is less than or equal to the start of every
interval still unhandled at the moment of the pop (the unhandled list is
kept sorted by start). The pop sequence itself need not be non-decreasing,
because split children with earlier start positions can be inserted
mid-walk. -/
theorem C7_walk_pop_minimal (g : Graph) (group register_count fuel sc : Nat)
    (gf : Graph) (tf : List (Nat × List Nat))
    (h : g.walk_intervals group register_count fuel
      = some (Except.ok (sc, gf, tf))) :
    ∀ p ∈ tf, ∀ s ∈ p.2, p.1 ≤ s := by
  unfold Graph.walk_intervals at h
  rcases Option.bind_eq_some.mp h with ⟨state1, hsort, h⟩
  rcases Option.bind_eq_some.mp h with ⟨r, hloop, h⟩
  have hinv : wi_inv g state1 :=
    (Graph.sort_unhandled_inv g _ state1 hsort).1
  cases r with
  | error e => cases h
  | ok gst =>
    obtain ⟨g2, s2, t2⟩ := gst
    dsimp only at h
    have he : Except.ok (s2.spill_count, g2, t2)
        = Except.ok (sc, gf, tf) := Option.some.inj h
    injection he with he
    have h3 : t2 = tf := congrArg (fun p => p.2.2) he
    subst h3
    exact Graph.wi_loop_trace_good fuel g state1 [] (Except.ok (g2, s2, t2))
      hinv (by intro p hp; simp at hp) hloop g2 s2 t2 rfl

/-- C7 counterexample: the walker on c7_graph pops starts 1, 8, 7, 11, 11 —
the third pop (the child spilled out of interval 0 when interval 1 claimed
the register at position 8) starts at 7 < 8, so the sequence of processed
start positions decreases. -/
theorem C7_counterexample :
    c7_graph.walk_intervals 0 1 20 = some (Except.ok (2, c7_final, c7_trace)) ∧
    c7_trace.map Prod.fst = [1, 8, 7, 11, 11] ∧
    ¬ (c7_trace.map Prod.fst).Sorted (· ≤ ·) :=
  ⟨rfl, rfl, by decide⟩

/-- Witness: the amended pop-minimality applied to the concrete c7_graph
run, at the out-of-order pop (7, [11]): 7 is still minimal among the
remaining unhandled starts. -/
theorem C7_witness : (7, [11]) ∈ c7_trace ∧ 7 ≤ 11 :=
  ⟨by decide,
   C7_walk_pop_minimal c7_graph 0 1 20 2 c7_final c7_trace rfl (7, [11])
     (by decide) 11 (by decide)⟩

end LinearScan

